import Mathlib

/-
Verification of the promise.hpp future/promise primitive (src/promise.hpp).

The embedding models the settlement state machine of `promise<T>::state`
(status, single-slot storage, stored exception, handler queue), the chaining
protocol (`then`, `fail`) and the combinators (`make_promise`,
`make_resolved_promise`, `make_all_promise`, `make_any_promise`).

Modelling decisions, all derived from the source:
- Promise handles are shared pointers to a state; copies of a handle share one
  state.  We model the set of states as a heap indexed by promise ids (Nat).
  A handle is identified with its state id.
- Payload values are modelled by the inductive `PVal` (a unit marker for
  `promise<void>`, naturals, and lists of values for the `make_all` output
  container).  `std::exception_ptr` is an opaque, type-erased carrier; it is
  modelled by an opaque code `Nat := Nat`.
- User continuations passed to `then`/`fail` are C++ callables that either
  return a value or throw; they are modelled as Lean functions into
  `Except Nat _` (`Except.error` is a throw).
- The lambdas the library itself builds and stores in the handler queue
  (`resolve_h`/`reject_h` inside `state::attach`, and the closures built by
  `make_all_promise`/`make_any_promise`) mutate the shared heap, so they are
  deep-embedded as the inductive `Handler`; each constructor corresponds to
  one closure pair in the source and its interpretation below follows that
  closure body line by line.
- Exceptions never escape settlement (`reject` is noexcept, handler bodies are
  try-wrapped), so `resolveP`/`rejectP` are total functions returning the
  boolean the source returns.
- Settlement recurses through the heap (a handler settles the downstream
  promise, which runs its own handlers).  The recursion is fueled; every
  scenario in the theorems below carries enough fuel, and all statements are
  made for an arbitrary fuel offset so no behavior is hidden by fuel
  exhaustion.
- As ghost instrumentation (not present in the source, and affecting nothing
  but itself) the heap carries a log of user-continuation invocations: each
  `attachP` handler has a ghost tag, and invoking its resolve side (the user
  on_resolve) or its reject side (the user on_reject) appends one event.  The
  log is what lets the theorems say "this continuation fired exactly once,
  in this order, with this value".
-/

namespace PromiseHpp

/-- Payload values.  `unit` stands for the `void` payload, `list` for the
`std::vector` of results produced by `make_all_promise`. -/
inductive PVal where
  | unit
  | nat (n : Nat)
  | list (l : List PVal)
deriving Inhabited

/-- The tri-state `promise<T>::status` (src/promise.hpp 127-131). -/
inductive PStatus where
  | pending
  | resolved
  | rejected
deriving DecidableEq

/-- Ghost log events: invocation of a user continuation stored via `attach`.
`res tag v` records the resolve-side user function of the handler pair with
ghost tag `tag` being invoked with value `v`; `rej tag e` records its
reject-side user function being invoked with error `e`. -/
inductive Ev where
  | res (tag : Nat) (v : PVal)
  | rej (tag : Nat) (e : Nat)

/-- Deep embedding of the closure pairs stored in `state::handlers_`.

- `attachP tag f g next`: the pair (`resolve_h`, `reject_h`) built by
  `promise<T>::state::attach` for a plain-value continuation
  (src/promise.hpp 331-367): `f` is the user on_resolve, `g` the user
  on_reject, `next` the downstream promise, `tag` a ghost tag for the log.
- `allA ctx idx outp next1`: the pair built by `make_all_promise` attaching
  `then([context,resolver,result_index](v){ if (context->apply_result(i,v))
  resolver(results); })` to input `idx` (src/promise.hpp 819-827), with the
  one-argument `then` default no-op reject observer; `next1` is the
  `promise<void>` that `then` returns, `outp` the aggregate output promise
  the captured resolver settles.
- `anyRes outp next1`: the pair built by `make_any_promise` attaching
  `then([resolver](v){ resolver(v); })` to an input (src/promise.hpp 856-858).
- `failRej outp next2`: the pair built by `.fail([rejector](e){ rejector(e); })`
  on the intermediate `promise<void>` in both combinators (src/promise.hpp
  828-830 and 858-860): resolve side is the no-op value pass-through of
  `fail`, reject side forwards the error to `outp` and then re-rejects
  downstream. -/
inductive Handler where
  | attachP (tag : Nat) (f : PVal → Except Nat PVal) (g : Nat → Except Nat Unit) (next : Nat)
  | allA (ctx : Nat) (idx : Nat) (outp : Nat) (next1 : Nat)
  | anyRes (outp : Nat) (next1 : Nat)
  | failRej (outp : Nat) (next2 : Nat)

/-- `promise<T>::state` (src/promise.hpp 266-421): status, single-slot storage
(`value = some _` iff the slot was written), the stored `exception_`, and the
queue `handlers_`.  The mutex serializes access; the model is sequential so it
needs no lock. -/
structure PState where
  status : PStatus := .pending
  value : Option PVal := none
  error : Option Nat := none
  handlers : List Handler := []

/-- The shared `context_t` of `make_all_promise` (src/promise.hpp 799-810):
the result buffer and the completion counter. -/
structure AllCtx where
  results : List PVal
  counter : Nat

/-- The heap of all promise states and all `make_all` contexts, plus the ghost
invocation log.  `nextId`/`nextCtx` are the allocation frontiers. -/
structure Heap where
  states : Nat → Option PState
  nextId : Nat
  ctxs : Nat → Option AllCtx
  nextCtx : Nat
  log : List Ev

/-- Overwrite the state of promise `p`. -/
def Heap.update (h : Heap) (p : Nat) (st : PState) : Heap :=
  { h with states := fun q => if q = p then some st else h.states q }

/-- Overwrite the `make_all` context `c`. -/
def Heap.setCtx (h : Heap) (c : Nat) (ctx : AllCtx) : Heap :=
  { h with ctxs := fun d => if d = c then some ctx else h.ctxs d }

/-- Append one ghost event to the log. -/
def Heap.pushLog (h : Heap) (ev : Ev) : Heap :=
  { h with log := h.log ++ [ev] }

/-- `handlers_.clear()` at the end of `invoke_resolve_handlers_` /
`invoke_reject_handlers_` (src/promise.hpp 391, 398). -/
def clearHandlers (h : Heap) (p : Nat) : Heap :=
  match h.states p with
  | none => h
  | some st => h.update p { st with handlers := [] }

/-- Default construction of a promise handle, `promise() :
state_(std::make_shared<state>())` (src/promise.hpp 133-134): allocate a fresh
pending state and return its id. -/
def freshP (h : Heap) : Nat × Heap :=
  (h.nextId,
   { h with
     states := fun q => if q = h.nextId then some {} else h.states q,
     nextId := h.nextId + 1 })

/-- Interpretation of the reject side (`reject_h`, src/promise.hpp 334-346) of
a stored handler pair, parameterized by the settlement functions `rs`/`rj` of
the current fuel level.

- `attachP`: `try { invoke(f, e); n.reject(e); } catch (...)
  { n.reject(std::current_exception()); }` - the user observer `g` runs (ghost
  logged), then the downstream is rejected with the original error, or with
  the newly raised one if `g` throws.
- `allA`/`anyRes` come from the one-argument `then`, whose default reject
  observer `[](std::exception_ptr){}` never throws, so the downstream
  `promise<void>` is rejected with the original error.
- `failRej`: the user function is `[rejector](e){ rejector(e); }`, which
  rejects the combinator output `outp` (a bool-returning call that does not
  throw) and returns normally, after which the downstream is rejected with the
  same error. -/
def runHandlerRejectF (rj : Heap → Nat → Nat → Bool × Heap) (h : Heap) :
    Handler → Nat → Heap
  | .attachP tag _ g n, e =>
    let h1 := h.pushLog (.rej tag e)
    match g e with
    | .ok _ => (rj h1 n e).2
    | .error e2 => (rj h1 n e2).2
  | .allA _ _ _ n1, e => (rj h n1 e).2
  | .anyRes _ n1, e => (rj h n1 e).2
  | .failRej outp n2, e => (rj ((rj h outp e).2) n2 e).2

/-- Interpretation of the resolve side (`resolve_h`, src/promise.hpp 348-363
and the void-U variant 310-325) of a stored handler pair.

- `attachP`: `try { auto r = invoke(f, v); n.resolve(std::move(r)); }
  catch (...) { invoke(std::move(j), std::current_exception()); }` - the user
  function `f` runs (ghost logged); on normal return the downstream resolves
  with the result; on throw the paired reject side `j` runs with the raised
  condition.
- `allA`: `context->apply_result(result_index, v)` writes the value at the
  input position and bumps the counter (src/promise.hpp 806-809); when the
  counter reaches the input count the captured resolver resolves `outp` with
  the completed buffer; then the downstream `promise<void>` resolves.  None
  of this throws.
- `anyRes`: `resolver(v)` resolves `outp` with the settling value, then the
  downstream `promise<void>` resolves.
- `failRej`: resolve side of `fail` on `promise<void>`: the no-op `[]{}` runs,
  then the downstream resolves. -/
def runHandlerResolveF (rs : Heap → Nat → PVal → Bool × Heap)
    (rj : Heap → Nat → Nat → Bool × Heap) (h : Heap) : Handler → PVal → Heap
  | .attachP tag f g n, v =>
    let h1 := h.pushLog (.res tag v)
    match f v with
    | .ok r => (rs h1 n r).2
    | .error e => runHandlerRejectF rj h1 (.attachP tag f g n) e
  | .allA c idx outp n1, v =>
    match h.ctxs c with
    | none => (rs h n1 PVal.unit).2
    | some ctx =>
      let results := ctx.results.set idx v
      let counter := ctx.counter + 1
      let h1 := h.setCtx c { results := results, counter := counter }
      let h2 := if counter = results.length
                then (rs h1 outp (PVal.list results)).2 else h1
      (rs h2 n1 PVal.unit).2
  | .anyRes outp n1, v => (rs ((rs h outp v).2) n1 PVal.unit).2
  | .failRej _ n2, _ => (rs h n2 PVal.unit).2

/-- `invoke_resolve_handlers_` (src/promise.hpp 386-392) without the final
clear: invoke every queued pair, in order, on the resolve side. -/
def runListResF (rs : Heap → Nat → PVal → Bool × Heap)
    (rj : Heap → Nat → Nat → Bool × Heap) : Heap → List Handler → PVal → Heap
  | h, [], _ => h
  | h, hd :: tl, v => runListResF rs rj (runHandlerResolveF rs rj h hd v) tl v

/-- `invoke_reject_handlers_` (src/promise.hpp 394-399) without the final
clear: invoke every queued pair, in order, on the reject side. -/
def runListRejF (rj : Heap → Nat → Nat → Bool × Heap) :
    Heap → List Handler → Nat → Heap
  | h, [], _ => h
  | h, hd :: tl, e => runListRejF rj (runHandlerRejectF rj h hd e) tl e

mutual

/-- `promise<T>::state::resolve` (src/promise.hpp 270-280): under the lock, a
non-pending state returns false unchanged; otherwise the value is stored, the
status set to resolved, the queued handlers invoked in attachment order and
then cleared, and true is returned. -/
def resolveP : Nat → Heap → Nat → PVal → Bool × Heap
  | 0, h, _, _ => (false, h)
  | fuel + 1, h, p, v =>
    match h.states p with
    | none => (false, h)
    | some st =>
      match st.status with
      | .pending =>
        let h1 := h.update p { st with status := .resolved, value := some v }
        let h2 := runListResF (fun hh q w => resolveP fuel hh q w)
                              (fun hh q e => rejectP fuel hh q e)
                              h1 st.handlers v
        (true, clearHandlers h2 p)
      | _ => (false, h)

/-- `promise<T>::state::reject` (src/promise.hpp 282-291): under the lock, a
non-pending state returns false unchanged; otherwise the exception is stored,
the status set to rejected, the queued handlers invoked in attachment order
and then cleared, and true is returned. -/
def rejectP : Nat → Heap → Nat → Nat → Bool × Heap
  | 0, h, _, _ => (false, h)
  | fuel + 1, h, p, e =>
    match h.states p with
    | none => (false, h)
    | some st =>
      match st.status with
      | .pending =>
        let h1 := h.update p { st with status := .rejected, error := some e }
        let h2 := runListRejF (fun hh q e2 => rejectP fuel hh q e2)
                              h1 st.handlers e
        (true, clearHandlers h2 p)
      | _ => (false, h)

end

/-- `state::add_handlers_` (src/promise.hpp 369-384) for one handler pair: if
the state is already resolved the resolve side runs immediately with the
stored value; if already rejected the reject side runs immediately with the
stored exception; otherwise the pair is queued. -/
def attachPair (fuel : Nat) (h : Heap) (p : Nat) (hd : Handler) : Heap :=
  match h.states p with
  | none => h
  | some st =>
    match st.status with
    | .resolved =>
      runHandlerResolveF (fun hh q w => resolveP fuel hh q w)
                         (fun hh q e => rejectP fuel hh q e)
                         h hd (st.value.getD default)
    | .rejected =>
      runHandlerRejectF (fun hh q e => rejectP fuel hh q e)
                        h hd (st.error.getD 0)
    | .pending => h.update p { st with handlers := st.handlers ++ [hd] }

/-- The two-argument `promise<T>::then(on_resolve, on_reject)` for a
plain-value continuation (src/promise.hpp 214-227): create the downstream
promise `next`, attach the handler pair built from `f`/`g` via
`state::attach` + `add_handlers_`, and return `next`.  `tag` is the ghost log
tag of the pair. -/
def thenFG (fuel : Nat) (h : Heap) (p : Nat) (tag : Nat)
    (f : PVal → Except Nat PVal) (g : Nat → Except Nat Unit) : Nat × Heap :=
  let fr := freshP h
  (fr.1, attachPair fuel fr.2 p (.attachP tag f g fr.1))

/-- The one-argument `promise<T>::then(on_resolve)` (src/promise.hpp 229-238):
delegates to the two-argument form with the no-op reject observer
`[](std::exception_ptr){}`. -/
def then1 (fuel : Nat) (h : Heap) (p : Nat) (tag : Nat)
    (f : PVal → Except Nat PVal) : Nat × Heap :=
  thenFG fuel h p tag f (fun _ => Except.ok ())

/-- `promise<T>::fail(on_reject)` (src/promise.hpp 240-245): delegates to the
two-argument `then` with the identity value pass-through
`[](const T& value) { return value; }`. -/
def failP (fuel : Nat) (h : Heap) (p : Nat) (tag : Nat)
    (g : Nat → Except Nat Unit) : Nat × Heap :=
  thenFG fuel h p tag (fun v => Except.ok v) g

/-- The resolver closure of `make_promise` (src/promise.hpp 730-734): a copy
of the result handle whose call resolves it. -/
def mkResolver (fuel : Nat) (p : Nat) : PVal → Heap → Bool × Heap :=
  fun v hh => resolveP fuel hh p v

/-- The rejector closure of `make_promise` (src/promise.hpp 736-740). -/
def mkRejector (fuel : Nat) (p : Nat) : Nat → Heap → Bool × Heap :=
  fun e hh => rejectP fuel hh p e

/-- `make_promise<R>(f)` (src/promise.hpp 726-752): create the result promise,
invoke the initiator synchronously with the resolver/rejector closures, and if
the initiator throws, reject the result with the raised condition.  The
initiator is user code invoked (never stored), so it is taken as a function of
the two closures and the heap; it returns the heap it produced together with
`some e` if it raised `e` on the way out. -/
def make_promise (fuel : Nat) (h : Heap)
    (init : (PVal → Heap → Bool × Heap) → (Nat → Heap → Bool × Heap) →
            Heap → Heap × Option Nat) : Nat × Heap :=
  let p := h.nextId
  let h1 := (freshP h).2
  match init (mkResolver fuel p) (mkRejector fuel p) h1 with
  | (h2, none) => (p, h2)
  | (h2, some e) => (p, (rejectP fuel h2 p e).2)

/-- `make_resolved_promise(v)` (src/promise.hpp 764-769): a fresh promise,
immediately resolved. -/
def make_resolved_promise (fuel : Nat) (h : Heap) (v : PVal) : Nat × Heap :=
  let fr := freshP h
  (fr.1, (resolveP fuel fr.2 fr.1 v).2)

/-- `make_rejected_promise(e)` (src/promise.hpp 782-787): a fresh promise,
immediately rejected. -/
def make_rejected_promise (fuel : Nat) (h : Heap) (e : Nat) : Nat × Heap :=
  let fr := freshP h
  (fr.1, (rejectP fuel fr.2 fr.1 e).2)

/-- One loop iteration of the `make_all_promise` initiator (src/promise.hpp
819-831): `(*iter).then(bufferLambda)` creates the intermediate
`promise<void>` and attaches the `allA` pair to input `p`; `.fail(rejector)`
creates a second `promise<void>` and attaches the `failRej` pair to the
first. -/
def attachAllInput (fuel : Nat) (h : Heap) (c : Nat) (outp : Nat)
    (i : Nat) (p : Nat) : Heap :=
  let fr1 := freshP h
  let h2 := attachPair fuel fr1.2 p (.allA c i outp fr1.1)
  let fr2 := freshP h2
  attachPair fuel fr2.2 fr1.1 (.failRej outp fr2.1)

/-- Allocate the shared `context_t` of `make_all_promise` (src/promise.hpp
799-810, 818): a default-initialized buffer of the input length and a zero
counter. -/
def newCtx (h : Heap) (n : Nat) : Nat × Heap :=
  (h.nextCtx,
   { h with
     ctxs := fun c => if c = h.nextCtx
                      then some { results := List.replicate n default, counter := 0 }
                      else h.ctxs c,
     nextCtx := h.nextCtx + 1 })

/-- `make_all_promise` (src/promise.hpp 793-840): the empty input range
resolves immediately with the empty container; otherwise the output promise is
created (by `make_promise`, whose initiator runs synchronously and never
throws, so its catch branch is inlined away), the shared context allocated,
and the forwarding chain attached to every input at its position. -/
def make_all_promise (fuel : Nat) (h : Heap) (ps : List Nat) : Nat × Heap :=
  match ps with
  | [] => make_resolved_promise fuel h (.list [])
  | _ =>
    let fr := freshP h
    let c := newCtx fr.2 ps.length
    (fr.1,
     (ps.zip (List.range ps.length)).foldl
       (fun acc pi => attachAllInput fuel acc c.1 fr.1 pi.2 pi.1) c.2)

/-- One loop iteration of the `make_any_promise` initiator (src/promise.hpp
856-861): attach the resolver-forwarding pair to input `p`, then the
rejector-forwarding `fail` pair to the intermediate `promise<void>`. -/
def attachAnyInput (fuel : Nat) (h : Heap) (outp : Nat) (p : Nat) : Heap :=
  let fr1 := freshP h
  let h2 := attachPair fuel fr1.2 p (.anyRes outp fr1.1)
  let fr2 := freshP h2
  attachPair fuel fr2.2 fr1.1 (.failRej outp fr2.1)

/-- `make_any_promise` (src/promise.hpp 846-864): an empty input range throws
`std::logic_error` synchronously at call time; otherwise the output promise is
created and the identical forwarding pair attached to every input. -/
def make_any_promise (fuel : Nat) (h : Heap) (ps : List Nat) :
    Except String (Nat × Heap) :=
  match ps with
  | [] =>
    Except.error ("at least one input promise must be provided for make_any_promise")
  | _ =>
    let fr := freshP h
    Except.ok (fr.1, ps.foldl (fun acc p => attachAnyInput fuel acc fr.1 p) fr.2)

/-- The empty heap. -/
def emptyHeap : Heap :=
  { states := fun _ => none, nextId := 0, ctxs := fun _ => none, nextCtx := 0,
    log := [] }

/-- A heap holding exactly `n` fresh pending promises with ids `0..n-1`. -/
def blankHeap (n : Nat) : Heap :=
  { states := fun q => if q < n then some {} else none, nextId := n,
    ctxs := fun _ => none, nextCtx := 0, log := [] }

/-- The settlement function a handler invocation uses at a given fuel level
(eta form of `resolveP fuel`). -/
abbrev settleR (fuel : Nat) : Heap → Nat → PVal → Bool × Heap :=
  fun hh q w => resolveP fuel hh q w

/-- The rejection function a handler invocation uses at a given fuel level
(eta form of `rejectP fuel`). -/
abbrev settleJ (fuel : Nat) : Heap → Nat → Nat → Bool × Heap :=
  fun hh q e => rejectP fuel hh q e

/-- One user continuation pair for the two-argument `then`: the on_resolve
function and the on_reject observer. -/
def UserPair : Type := (PVal → Except Nat PVal) × (Nat → Except Nat Unit)

/-- Attach a sequence of continuation pairs to promise `p` by repeated calls
of the two-argument `then`, in order, ghost tags counting up from `t0`. -/
def attachSeq (fuel : Nat) (h : Heap) (p : Nat) (t0 : Nat) :
    List UserPair → Heap
  | [] => h
  | pr :: rest => attachSeq fuel (thenFG fuel h p t0 pr.1 pr.2).2 p (t0 + 1) rest

/-- The handler queue that `attachSeq` builds: one `attachP` pair per user
pair, with consecutive ghost tags from `t0` and consecutive fresh downstream
ids from `q0`. -/
def mkHandlers (t0 : Nat) (q0 : Nat) : List UserPair → List Handler
  | [] => []
  | pr :: rest => Handler.attachP t0 pr.1 pr.2 q0 :: mkHandlers (t0 + 1) (q0 + 1) rest

/-- Expected ghost log of resolving with `v` through a queue of user pairs:
every on_resolve fires once, in attachment order, with `v`; a pair whose
on_resolve raises additionally fires its observer once with the raised
condition. -/
def resLogOf (t0 : Nat) (v : PVal) : List UserPair → List Ev
  | [] => []
  | pr :: rest =>
    (Ev.res t0 v :: (match pr.1 v with | .ok _ => [] | .error e => [Ev.rej t0 e]))
      ++ resLogOf (t0 + 1) v rest

/-- Expected ghost log of rejecting with `e` through a queue of user pairs:
every on_reject observer fires once, in attachment order, with `e`. -/
def rejLogOf (t0 : Nat) (e : Nat) : List UserPair → List Ev
  | [] => []
  | _ :: rest => Ev.rej t0 e :: rejLogOf (t0 + 1) e rest

/-- A settlement request: resolve or reject one promise. -/
inductive SOp where
  | sres (p : Nat) (v : PVal)
  | srej (p : Nat) (e : Nat)

/-- Run a list of settlement requests in order. -/
def settleOps (fuel : Nat) : Heap → List SOp → Heap
  | h, [] => h
  | h, .sres p v :: rest => settleOps fuel (resolveP fuel h p v).2 rest
  | h, .srej p e :: rest => settleOps fuel (rejectP fuel h p e).2 rest

/-- Resolve the promises in the list `order`, in that order, promise `i`
receiving value `v i`. -/
def settleAll (fuel : Nat) (v : Nat → PVal) : Heap → List Nat → Heap
  | h, [] => h
  | h, i :: rest => settleAll fuel v (resolveP fuel h i (v i)).2 rest

/-- The canonical `make_any` scenario heap: `n` fresh pending inputs `0..n-1`
in a blank heap, given to `make_any_promise`; the output promise is `n`. -/
def anyScenario (fuel n : Nat) : Heap :=
  match make_any_promise fuel (blankHeap n) (List.range n) with
  | .error _ => emptyHeap
  | .ok pr => pr.2

/-- The canonical `make_all` scenario: `n` fresh pending inputs `0..n-1` in a
blank heap, given to `make_all_promise`; the output promise id is the first
component. -/
def allScenario (fuel n : Nat) : Nat × Heap :=
  make_all_promise fuel (blankHeap n) (List.range n)

/-- Invariant of the canonical `make_all` scenario (inputs `0..n-1`, output
`n`, shared context `0`, intermediates `n + 1 + 2i` and `n + 2 + 2i`) after
exactly the inputs listed in `done` have been resolved, input `i` with value
`v i`: unresolved inputs still hold their forwarding pair, resolved inputs and
their intermediates are settled with drained queues, the shared buffer holds
`v i` at every resolved position `i` (and the default elsewhere) with the
counter equal to the number of resolved inputs, and the output is still blank
pending until the counter reaches `n`, at which point it is resolved with the
buffer in input order. -/
def allInv (n : Nat) (v : Nat → PVal) (done : List Nat) (h : Heap) : Prop :=
  done.Nodup
  ∧ (∀ i ∈ done, i < n)
  ∧ (∀ i, i < n → i ∉ done →
      h.states i = some { status := .pending, value := none, error := none,
                          handlers := [Handler.allA 0 i n (n + 1 + 2 * i)] }
      ∧ h.states (n + 1 + 2 * i)
        = some { status := .pending, value := none, error := none,
                 handlers := [Handler.failRej n (n + 1 + 2 * i + 1)] }
      ∧ h.states (n + 1 + 2 * i + 1) = some {})
  ∧ (∀ i ∈ done,
      h.states i = some { status := .resolved, value := some (v i),
                          error := none, handlers := [] }
      ∧ h.states (n + 1 + 2 * i)
        = some { status := .resolved, value := some PVal.unit, error := none,
                 handlers := [] }
      ∧ h.states (n + 1 + 2 * i + 1)
        = some { status := .resolved, value := some PVal.unit, error := none,
                 handlers := [] })
  ∧ h.ctxs 0 = some { results := (List.range n).map (fun j => if j ∈ done then v j else PVal.unit), counter := done.length }
  ∧ (done.length < n →
      h.states n = some { status := .pending, value := none, error := none,
                          handlers := [] })
  ∧ (done.length = n →
      h.states n = some { status := .resolved,
                          value := some (.list ((List.range n).map v)),
                          error := none, handlers := [] })

/- ---------------------------------------------------------------------------
Pointwise lemmas about the heap primitives.
--------------------------------------------------------------------------- -/

theorem Heap.ext' {h1 h2 : Heap} (hs : ∀ q, h1.states q = h2.states q)
    (hn : h1.nextId = h2.nextId) (hc : ∀ c, h1.ctxs c = h2.ctxs c)
    (hnc : h1.nextCtx = h2.nextCtx) (hl : h1.log = h2.log) : h1 = h2 := by
  cases h1; cases h2
  simp only at hs hn hc hnc hl
  subst hn; subst hnc; subst hl
  congr 1
  · exact funext hs
  · exact funext hc

@[simp] theorem update_states_self (h : Heap) (p : Nat) (st : PState) :
    (h.update p st).states p = some st := by
  simp [Heap.update]

theorem update_states_ne (h : Heap) (p q : Nat) (st : PState) (hq : q ≠ p) :
    (h.update p st).states q = h.states q := by
  simp [Heap.update, hq]

@[simp] theorem update_log (h : Heap) (p : Nat) (st : PState) :
    (h.update p st).log = h.log := rfl

@[simp] theorem update_ctxs (h : Heap) (p : Nat) (st : PState) :
    (h.update p st).ctxs = h.ctxs := rfl

@[simp] theorem update_nextId (h : Heap) (p : Nat) (st : PState) :
    (h.update p st).nextId = h.nextId := rfl

@[simp] theorem update_nextCtx (h : Heap) (p : Nat) (st : PState) :
    (h.update p st).nextCtx = h.nextCtx := rfl

theorem update_update_self (h : Heap) (p : Nat) (a b : PState) :
    (h.update p a).update p b = h.update p b := by
  refine Heap.ext' (fun q => ?_) rfl (fun c => rfl) rfl rfl
  by_cases hq : q = p <;> simp [Heap.update, hq]

@[simp] theorem setCtx_states (h : Heap) (c : Nat) (ctx : AllCtx) :
    (h.setCtx c ctx).states = h.states := rfl

@[simp] theorem setCtx_log (h : Heap) (c : Nat) (ctx : AllCtx) :
    (h.setCtx c ctx).log = h.log := rfl

@[simp] theorem setCtx_ctxs_self (h : Heap) (c : Nat) (ctx : AllCtx) :
    (h.setCtx c ctx).ctxs c = some ctx := by
  simp [Heap.setCtx]

theorem setCtx_ctxs_ne (h : Heap) (c d : Nat) (ctx : AllCtx) (hd : d ≠ c) :
    (h.setCtx c ctx).ctxs d = h.ctxs d := by
  simp [Heap.setCtx, hd]

@[simp] theorem pushLog_states (h : Heap) (ev : Ev) :
    (h.pushLog ev).states = h.states := rfl

@[simp] theorem pushLog_ctxs (h : Heap) (ev : Ev) :
    (h.pushLog ev).ctxs = h.ctxs := rfl

@[simp] theorem pushLog_log (h : Heap) (ev : Ev) :
    (h.pushLog ev).log = h.log ++ [ev] := rfl

@[simp] theorem freshP_fst (h : Heap) : (freshP h).1 = h.nextId := rfl

@[simp] theorem freshP_states_self (h : Heap) :
    (freshP h).2.states h.nextId = some {} := by
  simp [freshP]

theorem freshP_states_ne (h : Heap) (q : Nat) (hq : q ≠ h.nextId) :
    (freshP h).2.states q = h.states q := by
  simp [freshP, hq]

@[simp] theorem freshP_nextId (h : Heap) : (freshP h).2.nextId = h.nextId + 1 := rfl

@[simp] theorem freshP_log (h : Heap) : (freshP h).2.log = h.log := rfl

@[simp] theorem freshP_ctxs (h : Heap) : (freshP h).2.ctxs = h.ctxs := rfl

@[simp] theorem freshP_nextCtx (h : Heap) : (freshP h).2.nextCtx = h.nextCtx := rfl

theorem clearHandlers_of_states (h : Heap) (p : Nat) (st : PState)
    (hst : h.states p = some st) :
    clearHandlers h p = h.update p { st with handlers := [] } := by
  simp [clearHandlers, hst]

theorem clearHandlers_states_ne (h : Heap) (p q : Nat) (hq : q ≠ p) :
    (clearHandlers h p).states q = h.states q := by
  unfold clearHandlers
  cases h.states p with
  | none => rfl
  | some st => simp [update_states_ne _ _ _ _ hq]

/- ---------------------------------------------------------------------------
Equation lemmas for the fueled settlement functions.
--------------------------------------------------------------------------- -/

@[simp] theorem resolveP_zero (h : Heap) (p : Nat) (v : PVal) :
    resolveP 0 h p v = (false, h) := by
  rw [resolveP]

@[simp] theorem rejectP_zero (h : Heap) (p : Nat) (e : Nat) :
    rejectP 0 h p e = (false, h) := by
  rw [rejectP]

theorem resolveP_none (fuel : Nat) (h : Heap) (p : Nat) (v : PVal)
    (hst : h.states p = none) : resolveP fuel h p v = (false, h) := by
  cases fuel with
  | zero => simp
  | succ n => rw [resolveP]; simp [hst]

theorem rejectP_none (fuel : Nat) (h : Heap) (p : Nat) (e : Nat)
    (hst : h.states p = none) : rejectP fuel h p e = (false, h) := by
  cases fuel with
  | zero => simp
  | succ n => rw [rejectP]; simp [hst]

theorem resolveP_not_pending (fuel : Nat) (h : Heap) (p : Nat) (v : PVal)
    (st : PState) (hst : h.states p = some st) (hs : st.status ≠ .pending) :
    resolveP fuel h p v = (false, h) := by
  cases fuel with
  | zero => simp
  | succ n =>
    rw [resolveP]
    simp only [hst]

theorem rejectP_not_pending (fuel : Nat) (h : Heap) (p : Nat) (e : Nat)
    (st : PState) (hst : h.states p = some st) (hs : st.status ≠ .pending) :
    rejectP fuel h p e = (false, h) := by
  cases fuel with
  | zero => simp
  | succ n =>
    rw [rejectP]
    simp only [hst]

theorem resolveP_pending (fuel : Nat) (h : Heap) (p : Nat) (v : PVal)
    (st : PState) (hst : h.states p = some st) (hs : st.status = .pending) :
    resolveP (fuel + 1) h p v =
      (true,
       clearHandlers
         (runListResF (settleR fuel) (settleJ fuel)
           (h.update p { st with status := .resolved, value := some v })
           st.handlers v) p) := by
  rw [resolveP]
  simp only [hst, hs]

theorem rejectP_pending (fuel : Nat) (h : Heap) (p : Nat) (e : Nat)
    (st : PState) (hst : h.states p = some st) (hs : st.status = .pending) :
    rejectP (fuel + 1) h p e =
      (true,
       clearHandlers
         (runListRejF (settleJ fuel)
           (h.update p { st with status := .rejected, error := some e })
           st.handlers e) p) := by
  rw [rejectP]
  simp only [hst, hs]

theorem resolveP_pending_nohandlers (fuel : Nat) (h : Heap) (p : Nat) (v : PVal)
    (st : PState) (hst : h.states p = some st) (hs : st.status = .pending)
    (hh : st.handlers = []) :
    resolveP (fuel + 1) h p v =
      (true, h.update p { st with status := .resolved, value := some v,
                                  handlers := [] }) := by
  rw [resolveP_pending fuel h p v st hst hs, hh]
  rw [show runListResF (settleR fuel) (settleJ fuel)
        (h.update p { st with status := .resolved, value := some v,
                              handlers := [] }) [] v =
      h.update p { st with status := .resolved, value := some v,
                           handlers := [] } from rfl]
  rw [clearHandlers_of_states _ _ _ (update_states_self _ _ _),
      update_update_self]

theorem rejectP_pending_nohandlers (fuel : Nat) (h : Heap) (p : Nat) (e : Nat)
    (st : PState) (hst : h.states p = some st) (hs : st.status = .pending)
    (hh : st.handlers = []) :
    rejectP (fuel + 1) h p e =
      (true, h.update p { st with status := .rejected, error := some e,
                                  handlers := [] }) := by
  rw [rejectP_pending fuel h p e st hst hs, hh]
  rw [show runListRejF (settleJ fuel)
        (h.update p { st with status := .rejected, error := some e,
                              handlers := [] }) [] e =
      h.update p { st with status := .rejected, error := some e,
                           handlers := [] } from rfl]
  rw [clearHandlers_of_states _ _ _ (update_states_self _ _ _),
      update_update_self]

@[simp] theorem setCtx_nextId (h : Heap) (c : Nat) (ctx : AllCtx) :
    (h.setCtx c ctx).nextId = h.nextId := rfl

@[simp] theorem pushLog_nextId (h : Heap) (ev : Ev) :
    (h.pushLog ev).nextId = h.nextId := rfl

@[simp] theorem clearHandlers_nextId (h : Heap) (p : Nat) :
    (clearHandlers h p).nextId = h.nextId := by
  unfold clearHandlers
  cases h.states p <;> rfl

@[simp] theorem clearHandlers_log (h : Heap) (p : Nat) :
    (clearHandlers h p).log = h.log := by
  unfold clearHandlers
  cases h.states p <;> rfl

@[simp] theorem clearHandlers_ctxs (h : Heap) (p : Nat) :
    (clearHandlers h p).ctxs = h.ctxs := by
  unfold clearHandlers
  cases h.states p <;> rfl

/- ---------------------------------------------------------------------------
Preservation: a state that is already settled is never changed again by any
settlement activity.  This is the at-most-once guarantee that the combinators
rely on ("subsequent resolutions/rejections are silently ignored by the state
machine's own at-most-once rule").
--------------------------------------------------------------------------- -/

/-- Settled states survive `runHandlerRejectF`, given that the underlying
rejection function preserves them. -/
theorem runHandlerRejectF_preserve
    (rj : Heap → Nat → Nat → Bool × Heap)
    (hrj : ∀ h p e q st, h.states q = some st → st.status ≠ .pending →
      ((rj h p e).2).states q = some st) :
    ∀ h hd e q st, h.states q = some st → st.status ≠ .pending →
      (runHandlerRejectF rj h hd e).states q = some st := by
  intro h hd e q st hq hs
  cases hd with
  | attachP tag f g n =>
    rw [runHandlerRejectF]
    cases g e with
    | ok _ => exact hrj _ _ _ _ _ (by simpa using hq) hs
    | error e2 => exact hrj _ _ _ _ _ (by simpa using hq) hs
  | allA c idx outp n1 =>
    rw [runHandlerRejectF]; exact hrj _ _ _ _ _ hq hs
  | anyRes outp n1 =>
    rw [runHandlerRejectF]; exact hrj _ _ _ _ _ hq hs
  | failRej outp n2 =>
    rw [runHandlerRejectF]
    exact hrj _ _ _ _ _ (hrj _ _ _ _ _ hq hs) hs

/-- Settled states survive `runHandlerResolveF`, given that the underlying
settlement functions preserve them. -/
theorem runHandlerResolveF_preserve
    (rs : Heap → Nat → PVal → Bool × Heap) (rj : Heap → Nat → Nat → Bool × Heap)
    (hrs : ∀ h p v q st, h.states q = some st → st.status ≠ .pending →
      ((rs h p v).2).states q = some st)
    (hrj : ∀ h p e q st, h.states q = some st → st.status ≠ .pending →
      ((rj h p e).2).states q = some st) :
    ∀ h hd v q st, h.states q = some st → st.status ≠ .pending →
      (runHandlerResolveF rs rj h hd v).states q = some st := by
  intro h hd v q st hq hs
  cases hd with
  | attachP tag f g n =>
    rw [runHandlerResolveF]
    cases f v with
    | ok r => exact hrs _ _ _ _ _ (by simpa using hq) hs
    | error e =>
      exact runHandlerRejectF_preserve rj hrj _ _ _ _ _ (by simpa using hq) hs
  | allA c idx outp n1 =>
    rw [runHandlerResolveF]
    cases hc : h.ctxs c with
    | none => exact hrs _ _ _ _ _ hq hs
    | some ctx =>
      by_cases hcnt : ctx.counter + 1 = (ctx.results.set idx v).length
      · simp only [hcnt, if_pos rfl]
        exact hrs _ _ _ _ _ (hrs _ _ _ _ _ (by simpa using hq) hs) hs
      · simp only [if_neg hcnt]
        exact hrs _ _ _ _ _ (by simpa using hq) hs
  | anyRes outp n1 =>
    rw [runHandlerResolveF]
    exact hrs _ _ _ _ _ (hrs _ _ _ _ _ hq hs) hs
  | failRej outp n2 =>
    rw [runHandlerResolveF]
    exact hrs _ _ _ _ _ hq hs

/-- Settled states survive `runListResF`. -/
theorem runListResF_preserve
    (rs : Heap → Nat → PVal → Bool × Heap) (rj : Heap → Nat → Nat → Bool × Heap)
    (hrs : ∀ h p v q st, h.states q = some st → st.status ≠ .pending →
      ((rs h p v).2).states q = some st)
    (hrj : ∀ h p e q st, h.states q = some st → st.status ≠ .pending →
      ((rj h p e).2).states q = some st) :
    ∀ hs h v q st, h.states q = some st → st.status ≠ .pending →
      (runListResF rs rj h hs v).states q = some st := by
  intro hs
  induction hs with
  | nil => intro h v q st hq hss; exact hq
  | cons hd tl ih =>
    intro h v q st hq hss
    rw [runListResF]
    exact ih _ _ _ _ (runHandlerResolveF_preserve rs rj hrs hrj _ _ _ _ _ hq hss) hss

/-- Settled states survive `runListRejF`. -/
theorem runListRejF_preserve
    (rj : Heap → Nat → Nat → Bool × Heap)
    (hrj : ∀ h p e q st, h.states q = some st → st.status ≠ .pending →
      ((rj h p e).2).states q = some st) :
    ∀ hs h e q st, h.states q = some st → st.status ≠ .pending →
      (runListRejF rj h hs e).states q = some st := by
  intro hs
  induction hs with
  | nil => intro h e q st hq hss; exact hq
  | cons hd tl ih =>
    intro h e q st hq hss
    rw [runListRejF]
    exact ih _ _ _ _ (runHandlerRejectF_preserve rj hrj _ _ _ _ _ hq hss) hss

/-- The at-most-once core: a state that is already resolved or rejected is
bitwise unchanged by any later `resolveP` or `rejectP` call, anywhere in the
heap, at any fuel. -/
theorem settled_preserved :
    ∀ fuel,
      (∀ h p v q st, h.states q = some st → st.status ≠ .pending →
        ((resolveP fuel h p v).2).states q = some st)
      ∧ (∀ h p e q st, h.states q = some st → st.status ≠ .pending →
        ((rejectP fuel h p e).2).states q = some st) := by
  intro fuel
  induction fuel with
  | zero =>
    constructor
    · intro h p v q st hq hs; simpa using hq
    · intro h p e q st hq hs; simpa using hq
  | succ n ih =>
    constructor
    · intro h p v q st hq hs
      cases hps : h.states p with
      | none => rw [resolveP_none _ _ _ _ hps]; exact hq
      | some stp =>
        by_cases hpend : stp.status = PStatus.pending
        · have hqp : q ≠ p := by
            intro heq; rw [heq, hps] at hq
            cases hq; exact hs hpend
          rw [resolveP_pending n h p v stp hps hpend]
          have h1 :
              (h.update p { stp with status := .resolved, value := some v }).states q
                = some st := by
            rw [update_states_ne _ _ _ _ hqp]; exact hq
          have h2 := runListResF_preserve (settleR n) (settleJ n)
            (fun h p v q st => (ih.1 h p v q st))
            (fun h p e q st => (ih.2 h p e q st))
            stp.handlers _ v _ _ h1 hs
          simpa [clearHandlers_states_ne _ _ _ hqp] using h2
        · rw [resolveP_not_pending _ _ _ _ _ hps hpend]; exact hq
    · intro h p e q st hq hs
      cases hps : h.states p with
      | none => rw [rejectP_none _ _ _ _ hps]; exact hq
      | some stp =>
        by_cases hpend : stp.status = PStatus.pending
        · have hqp : q ≠ p := by
            intro heq; rw [heq, hps] at hq
            cases hq; exact hs hpend
          rw [rejectP_pending n h p e stp hps hpend]
          have h1 :
              (h.update p { stp with status := .rejected, error := some e }).states q
                = some st := by
            rw [update_states_ne _ _ _ _ hqp]; exact hq
          have h2 := runListRejF_preserve (settleJ n)
            (fun h p e q st => (ih.2 h p e q st))
            stp.handlers _ e _ _ h1 hs
          simpa [clearHandlers_states_ne _ _ _ hqp] using h2
        · rw [rejectP_not_pending _ _ _ _ _ hps hpend]; exact hq

/-- Settlement allocates nothing: `runHandlerRejectF` keeps the allocation
frontier, given that the rejection function does. -/
theorem runHandlerRejectF_nextId (rj : Heap → Nat → Nat → Bool × Heap)
    (hrj : ∀ h p e, ((rj h p e).2).nextId = h.nextId) :
    ∀ h hd e, (runHandlerRejectF rj h hd e).nextId = h.nextId := by
  intro h hd e
  cases hd with
  | attachP tag f g n =>
    rw [runHandlerRejectF]
    cases g e with
    | ok _ => rw [hrj]; rfl
    | error e2 => rw [hrj]; rfl
  | allA c idx outp n1 => rw [runHandlerRejectF, hrj]
  | anyRes outp n1 => rw [runHandlerRejectF, hrj]
  | failRej outp n2 => rw [runHandlerRejectF, hrj, hrj]

/-- Settlement allocates nothing: `runHandlerResolveF` keeps the allocation
frontier, given that the settlement functions do. -/
theorem runHandlerResolveF_nextId (rs : Heap → Nat → PVal → Bool × Heap)
    (rj : Heap → Nat → Nat → Bool × Heap)
    (hrs : ∀ h p v, ((rs h p v).2).nextId = h.nextId)
    (hrj : ∀ h p e, ((rj h p e).2).nextId = h.nextId) :
    ∀ h hd v, (runHandlerResolveF rs rj h hd v).nextId = h.nextId := by
  intro h hd v
  cases hd with
  | attachP tag f g n =>
    rw [runHandlerResolveF]
    cases f v with
    | ok r => rw [hrs]; rfl
    | error e => rw [runHandlerRejectF_nextId rj hrj]; rfl
  | allA c idx outp n1 =>
    rw [runHandlerResolveF]
    cases h.ctxs c with
    | none => rw [hrs]
    | some ctx =>
      by_cases hcnt : ctx.counter + 1 = (ctx.results.set idx v).length
      · simp only [hcnt, if_pos rfl, if_true]
        rw [hrs, hrs]; rfl
      · simp only [if_neg hcnt]
        rw [hrs]; rfl
  | anyRes outp n1 => rw [runHandlerResolveF, hrs, hrs]
  | failRej outp n2 => rw [runHandlerResolveF, hrs]

/-- Settlement allocates nothing: handler lists keep the allocation
frontier. -/
theorem runListResF_nextId (rs : Heap → Nat → PVal → Bool × Heap)
    (rj : Heap → Nat → Nat → Bool × Heap)
    (hrs : ∀ h p v, ((rs h p v).2).nextId = h.nextId)
    (hrj : ∀ h p e, ((rj h p e).2).nextId = h.nextId) :
    ∀ hs h v, (runListResF rs rj h hs v).nextId = h.nextId := by
  intro hs
  induction hs with
  | nil => intro h v; rfl
  | cons hd tl ih =>
    intro h v
    rw [runListResF, ih, runHandlerResolveF_nextId rs rj hrs hrj]

/-- Settlement allocates nothing, reject side. -/
theorem runListRejF_nextId (rj : Heap → Nat → Nat → Bool × Heap)
    (hrj : ∀ h p e, ((rj h p e).2).nextId = h.nextId) :
    ∀ hs h e, (runListRejF rj h hs e).nextId = h.nextId := by
  intro hs
  induction hs with
  | nil => intro h e; rfl
  | cons hd tl ih =>
    intro h e
    rw [runListRejF, ih, runHandlerRejectF_nextId rj hrj]

/-- Settlement never allocates a promise: `resolveP` and `rejectP` keep the
allocation frontier unchanged. -/
theorem settle_nextId :
    ∀ fuel,
      (∀ h p v, ((resolveP fuel h p v).2).nextId = h.nextId)
      ∧ (∀ h p e, ((rejectP fuel h p e).2).nextId = h.nextId) := by
  intro fuel
  induction fuel with
  | zero => exact ⟨fun h p v => by simp, fun h p e => by simp⟩
  | succ n ih =>
    constructor
    · intro h p v
      cases hps : h.states p with
      | none => rw [resolveP_none _ _ _ _ hps]
      | some stp =>
        by_cases hpend : stp.status = PStatus.pending
        · rw [resolveP_pending n h p v stp hps hpend]
          simp only [clearHandlers_nextId]
          rw [runListResF_nextId (settleR n) (settleJ n) ih.1 ih.2]
          rfl
        · rw [resolveP_not_pending _ _ _ _ _ hps hpend]
    · intro h p e
      cases hps : h.states p with
      | none => rw [rejectP_none _ _ _ _ hps]
      | some stp =>
        by_cases hpend : stp.status = PStatus.pending
        · rw [rejectP_pending n h p e stp hps hpend]
          simp only [clearHandlers_nextId]
          rw [runListRejF_nextId (settleJ n) ih.2]
          rfl
        · rw [rejectP_not_pending _ _ _ _ _ hps hpend]

/-- Convenient corollary of `settled_preserved` for `resolveP`. -/
theorem resolveP_preserves_settled (fuel : Nat) (h : Heap) (p : Nat) (v : PVal)
    (q : Nat) (st : PState) (hq : h.states q = some st)
    (hs : st.status ≠ .pending) :
    ((resolveP fuel h p v).2).states q = some st :=
  (settled_preserved fuel).1 h p v q st hq hs

/-- Convenient corollary of `settled_preserved` for `rejectP`. -/
theorem rejectP_preserves_settled (fuel : Nat) (h : Heap) (p : Nat) (e : Nat)
    (q : Nat) (st : PState) (hq : h.states q = some st)
    (hs : st.status ≠ .pending) :
    ((rejectP fuel h p e).2).states q = some st :=
  (settled_preserved fuel).2 h p e q st hq hs

/-- First resolve of a pending state: returns true and the state ends up
resolved, holding the value, with its queue drained (handlers may touch other
states but never this one, which is settled by then). -/
theorem resolveP_pending_self (fuel : Nat) (h : Heap) (p : Nat) (v : PVal)
    (st : PState) (hst : h.states p = some st) (hs : st.status = .pending) :
    (resolveP (fuel + 1) h p v).1 = true ∧
    ((resolveP (fuel + 1) h p v).2).states p =
      some { st with status := .resolved, value := some v, handlers := [] } := by
  rw [resolveP_pending fuel h p v st hst hs]
  refine ⟨rfl, ?_⟩
  have h1 : (h.update p { st with status := .resolved, value := some v }).states p
      = some { st with status := .resolved, value := some v } :=
    update_states_self _ _ _
  have h2 := runListResF_preserve (settleR fuel) (settleJ fuel)
    (settled_preserved fuel).1 (settled_preserved fuel).2
    st.handlers _ v _ _ h1 (by simp)
  rw [clearHandlers_of_states _ _ _ h2, update_states_self]

/-- First reject of a pending state: returns true and the state ends up
rejected, holding the error, with its queue drained. -/
theorem rejectP_pending_self (fuel : Nat) (h : Heap) (p : Nat) (e : Nat)
    (st : PState) (hst : h.states p = some st) (hs : st.status = .pending) :
    (rejectP (fuel + 1) h p e).1 = true ∧
    ((rejectP (fuel + 1) h p e).2).states p =
      some { st with status := .rejected, error := some e, handlers := [] } := by
  rw [rejectP_pending fuel h p e st hst hs]
  refine ⟨rfl, ?_⟩
  have h1 : (h.update p { st with status := .rejected, error := some e }).states p
      = some { st with status := .rejected, error := some e } :=
    update_states_self _ _ _
  have h2 := runListRejF_preserve (settleJ fuel)
    (settled_preserved fuel).2
    st.handlers _ e _ _ h1 (by simp)
  rw [clearHandlers_of_states _ _ _ h2, update_states_self]

/- ---------------------------------------------------------------------------
Characterization of `then` on a pending promise and of settlement through a
single attached handler pair.
--------------------------------------------------------------------------- -/

/-- `then` on a pending promise: the pair is queued (in attachment order at
the end of the queue), the fresh downstream promise is pending and empty, and
nothing else changes. -/
theorem thenFG_pending (fuel : Nat) (h : Heap) (p : Nat) (tag : Nat)
    (f : PVal → Except Nat PVal) (g : Nat → Except Nat Unit) (st : PState)
    (hst : h.states p = some st) (hs : st.status = .pending)
    (hp : p ≠ h.nextId) :
    (thenFG fuel h p tag f g).1 = h.nextId
    ∧ ((thenFG fuel h p tag f g).2).states p =
        some { st with handlers := st.handlers ++ [.attachP tag f g h.nextId] }
    ∧ ((thenFG fuel h p tag f g).2).states h.nextId = some {}
    ∧ (∀ q, q ≠ p → q ≠ h.nextId →
        ((thenFG fuel h p tag f g).2).states q = h.states q)
    ∧ ((thenFG fuel h p tag f g).2).log = h.log
    ∧ ((thenFG fuel h p tag f g).2).nextId = h.nextId + 1
    ∧ ((thenFG fuel h p tag f g).2).ctxs = h.ctxs := by
  have hfr : (freshP h).2.states p = some st := by
    rw [freshP_states_ne _ _ hp]; exact hst
  rw [thenFG]
  rw [show attachPair fuel (freshP h).2 p (.attachP tag f g (freshP h).1) =
      (freshP h).2.update p
        { st with handlers := st.handlers ++ [.attachP tag f g h.nextId] } by
    rw [attachPair]
    simp only [hfr, hs, freshP_fst]]
  refine ⟨rfl, update_states_self _ _ _, ?_, ?_, rfl, rfl, rfl⟩
  · rw [update_states_ne _ _ _ _ (Ne.symm hp)]
    exact freshP_states_self h
  · intro q hqp hqn
    rw [update_states_ne _ _ _ _ hqp, freshP_states_ne _ _ hqn]

/-- Resolving a pending promise whose queue holds exactly one `attachP` pair
with a fresh downstream `q`: the promise settles resolved, the user on_resolve
fires once with the value; if it returns `r` the downstream resolves with `r`,
if it raises `e` the paired reject side fires once with `e` and the downstream
rejects with `e` (or with whatever the on_reject observer raised). -/
theorem resolve_one_attachP (fuel : Nat) (h : Heap) (p q : Nat) (tag : Nat)
    (f : PVal → Except Nat PVal) (g : Nat → Except Nat Unit) (v : PVal)
    (st : PState) (hst : h.states p = some st) (hs : st.status = .pending)
    (hhs : st.handlers = [Handler.attachP tag f g q])
    (hq : h.states q = some {}) (hpq : p ≠ q) :
    (resolveP (fuel + 2) h p v).1 = true
    ∧ ((resolveP (fuel + 2) h p v).2).states p
        = some { st with status := .resolved, value := some v, handlers := [] }
    ∧ ((resolveP (fuel + 2) h p v).2).states q
        = some (match f v with
          | .ok r => { status := .resolved, value := some r, error := none,
                       handlers := [] }
          | .error e =>
            { status := .rejected, value := none,
              error := some (match g e with | .ok _ => e | .error e2 => e2),
              handlers := [] })
    ∧ ((resolveP (fuel + 2) h p v).2).log
        = h.log ++ Ev.res tag v ::
            (match f v with | .ok _ => [] | .error e => [Ev.rej tag e])
    ∧ (∀ r, r ≠ p → r ≠ q → ((resolveP (fuel + 2) h p v).2).states r = h.states r) := by
  rw [show fuel + 2 = (fuel + 1) + 1 from rfl,
      resolveP_pending (fuel + 1) h p v st hst hs, hhs]
  set st1 : PState := { status := .resolved, value := some v, error := st.error, handlers := [Handler.attachP tag f g q] } with hst1
  have hq1 : (h.update p st1).states q = some {} := by
    rw [update_states_ne _ _ _ _ (Ne.symm hpq)]; exact hq
  rw [show runListResF (settleR (fuel + 1)) (settleJ (fuel + 1)) (h.update p st1)
        [Handler.attachP tag f g q] v =
      runHandlerResolveF (settleR (fuel + 1)) (settleJ (fuel + 1))
        (h.update p st1) (Handler.attachP tag f g q) v from rfl]
  rw [runHandlerResolveF]
  cases hf : f v with
  | ok r =>
    simp only []
    have hq2 : ((h.update p st1).pushLog (Ev.res tag v)).states q = some {} := by
      rw [pushLog_states]; exact hq1
    rw [show settleR (fuel + 1) ((h.update p st1).pushLog (Ev.res tag v)) q r =
        resolveP (fuel + 1) ((h.update p st1).pushLog (Ev.res tag v)) q r from rfl]
    rw [resolveP_pending_nohandlers fuel _ q r {} hq2 rfl rfl]
    set h4 := (((h.update p st1).pushLog (Ev.res tag v)).update q
      { status := .resolved, value := some r, error := none, handlers := [] })
      with hh4
    have hp4 : h4.states p = some st1 := by
      rw [hh4, update_states_ne _ _ _ _ hpq, pushLog_states, update_states_self]
    rw [clearHandlers_of_states _ _ _ hp4]
    refine ⟨by trivial, ?_, ?_, ?_, ?_⟩
    · rw [update_states_self]
    · rw [update_states_ne _ _ _ _ (Ne.symm hpq), hh4, update_states_self]
    · simp [hh4, Heap.pushLog]
    · intro r2 hr2p hr2q
      rw [update_states_ne _ _ _ _ hr2p, hh4, update_states_ne _ _ _ _ hr2q,
          pushLog_states, update_states_ne _ _ _ _ hr2p]
  | error e =>
    simp only []
    rw [runHandlerRejectF]
    cases hg : g e with
    | ok u =>
      simp only []
      have hq2 : (((h.update p st1).pushLog (Ev.res tag v)).pushLog
          (Ev.rej tag e)).states q = some {} := by
        rw [pushLog_states, pushLog_states]; exact hq1
      rw [show settleJ (fuel + 1) (((h.update p st1).pushLog (Ev.res tag v)).pushLog
            (Ev.rej tag e)) q e =
          rejectP (fuel + 1) (((h.update p st1).pushLog (Ev.res tag v)).pushLog
            (Ev.rej tag e)) q e from rfl]
      rw [rejectP_pending_nohandlers fuel _ q e {} hq2 rfl rfl]
      set h4 := ((((h.update p st1).pushLog (Ev.res tag v)).pushLog
        (Ev.rej tag e)).update q
        { status := .rejected, value := none, error := some e, handlers := [] })
        with hh4
      have hp4 : h4.states p = some st1 := by
        rw [hh4, update_states_ne _ _ _ _ hpq, pushLog_states, pushLog_states,
            update_states_self]
      rw [clearHandlers_of_states _ _ _ hp4]
      refine ⟨by trivial, ?_, ?_, ?_, ?_⟩
      · rw [update_states_self]
      · rw [update_states_ne _ _ _ _ (Ne.symm hpq), hh4, update_states_self]
      · simp [hh4, Heap.pushLog]
      · intro r2 hr2p hr2q
        rw [update_states_ne _ _ _ _ hr2p, hh4, update_states_ne _ _ _ _ hr2q,
            pushLog_states, pushLog_states, update_states_ne _ _ _ _ hr2p]
    | error e2 =>
      simp only []
      have hq2 : (((h.update p st1).pushLog (Ev.res tag v)).pushLog
          (Ev.rej tag e)).states q = some {} := by
        rw [pushLog_states, pushLog_states]; exact hq1
      rw [show settleJ (fuel + 1) (((h.update p st1).pushLog (Ev.res tag v)).pushLog
            (Ev.rej tag e)) q e2 =
          rejectP (fuel + 1) (((h.update p st1).pushLog (Ev.res tag v)).pushLog
            (Ev.rej tag e)) q e2 from rfl]
      rw [rejectP_pending_nohandlers fuel _ q e2 {} hq2 rfl rfl]
      set h4 := ((((h.update p st1).pushLog (Ev.res tag v)).pushLog
        (Ev.rej tag e)).update q
        { status := .rejected, value := none, error := some e2, handlers := [] })
        with hh4
      have hp4 : h4.states p = some st1 := by
        rw [hh4, update_states_ne _ _ _ _ hpq, pushLog_states, pushLog_states,
            update_states_self]
      rw [clearHandlers_of_states _ _ _ hp4]
      refine ⟨by trivial, ?_, ?_, ?_, ?_⟩
      · rw [update_states_self]
      · rw [update_states_ne _ _ _ _ (Ne.symm hpq), hh4, update_states_self]
      · simp [hh4, Heap.pushLog]
      · intro r2 hr2p hr2q
        rw [update_states_ne _ _ _ _ hr2p, hh4, update_states_ne _ _ _ _ hr2q,
            pushLog_states, pushLog_states, update_states_ne _ _ _ _ hr2p]

/-- Rejecting a pending promise whose queue holds exactly one `attachP` pair
with a fresh downstream `q`: the promise settles rejected, the user on_reject
observer fires once with the error, and the downstream is rejected with the
original error if the observer returns normally, or with the newly raised
condition if it raises. -/
theorem reject_one_attachP (fuel : Nat) (h : Heap) (p q : Nat) (tag : Nat)
    (f : PVal → Except Nat PVal) (g : Nat → Except Nat Unit) (e : Nat)
    (st : PState) (hst : h.states p = some st) (hs : st.status = .pending)
    (hhs : st.handlers = [Handler.attachP tag f g q])
    (hq : h.states q = some {}) (hpq : p ≠ q) :
    (rejectP (fuel + 2) h p e).1 = true
    ∧ ((rejectP (fuel + 2) h p e).2).states p
        = some { st with status := .rejected, error := some e, handlers := [] }
    ∧ ((rejectP (fuel + 2) h p e).2).states q
        = some { status := .rejected, value := none,
                 error := some (match g e with | .ok _ => e | .error e2 => e2),
                 handlers := [] }
    ∧ ((rejectP (fuel + 2) h p e).2).log = h.log ++ [Ev.rej tag e]
    ∧ (∀ r, r ≠ p → r ≠ q → ((rejectP (fuel + 2) h p e).2).states r = h.states r) := by
  rw [show fuel + 2 = (fuel + 1) + 1 from rfl,
      rejectP_pending (fuel + 1) h p e st hst hs, hhs]
  set st1 : PState := { status := .rejected, value := st.value, error := some e, handlers := [Handler.attachP tag f g q] } with hst1
  have hq1 : (h.update p st1).states q = some {} := by
    rw [update_states_ne _ _ _ _ (Ne.symm hpq)]; exact hq
  rw [show runListRejF (settleJ (fuel + 1)) (h.update p st1)
        [Handler.attachP tag f g q] e =
      runHandlerRejectF (settleJ (fuel + 1))
        (h.update p st1) (Handler.attachP tag f g q) e from rfl]
  rw [runHandlerRejectF]
  have hq2 : ((h.update p st1).pushLog (Ev.rej tag e)).states q = some {} := by
    rw [pushLog_states]; exact hq1
  cases hg : g e with
  | ok u =>
    simp only []
    rw [show settleJ (fuel + 1) ((h.update p st1).pushLog (Ev.rej tag e)) q e =
        rejectP (fuel + 1) ((h.update p st1).pushLog (Ev.rej tag e)) q e from rfl]
    rw [rejectP_pending_nohandlers fuel _ q e {} hq2 rfl rfl]
    set h4 := (((h.update p st1).pushLog (Ev.rej tag e)).update q
      { status := .rejected, value := none, error := some e, handlers := [] })
      with hh4
    have hp4 : h4.states p = some st1 := by
      rw [hh4, update_states_ne _ _ _ _ hpq, pushLog_states, update_states_self]
    rw [clearHandlers_of_states _ _ _ hp4]
    refine ⟨by trivial, ?_, ?_, ?_, ?_⟩
    · rw [update_states_self]
    · rw [update_states_ne _ _ _ _ (Ne.symm hpq), hh4, update_states_self]
    · simp [hh4, Heap.pushLog]
    · intro r2 hr2p hr2q
      rw [update_states_ne _ _ _ _ hr2p, hh4, update_states_ne _ _ _ _ hr2q,
          pushLog_states, update_states_ne _ _ _ _ hr2p]
  | error e2 =>
    simp only []
    rw [show settleJ (fuel + 1) ((h.update p st1).pushLog (Ev.rej tag e)) q e2 =
        rejectP (fuel + 1) ((h.update p st1).pushLog (Ev.rej tag e)) q e2 from rfl]
    rw [rejectP_pending_nohandlers fuel _ q e2 {} hq2 rfl rfl]
    set h4 := (((h.update p st1).pushLog (Ev.rej tag e)).update q
      { status := .rejected, value := none, error := some e2, handlers := [] })
      with hh4
    have hp4 : h4.states p = some st1 := by
      rw [hh4, update_states_ne _ _ _ _ hpq, pushLog_states, update_states_self]
    rw [clearHandlers_of_states _ _ _ hp4]
    refine ⟨by trivial, ?_, ?_, ?_, ?_⟩
    · rw [update_states_self]
    · rw [update_states_ne _ _ _ _ (Ne.symm hpq), hh4, update_states_self]
    · simp [hh4, Heap.pushLog]
    · intro r2 hr2p hr2q
      rw [update_states_ne _ _ _ _ hr2p, hh4, update_states_ne _ _ _ _ hr2q,
          pushLog_states, update_states_ne _ _ _ _ hr2p]

/-- `then` on an already resolved promise: the handler pair is not queued; the
user on_resolve fires immediately, synchronously within the `then` call, with
the stored value, and the fresh downstream promise is settled before the call
returns.  The attached-to promise itself is unchanged. -/
theorem thenFG_on_resolved (fuel : Nat) (h : Heap) (p : Nat) (tag : Nat)
    (f : PVal → Except Nat PVal) (g : Nat → Except Nat Unit) (st : PState)
    (v : PVal) (hst : h.states p = some st) (hs : st.status = .resolved)
    (hv : st.value = some v) (hp : p ≠ h.nextId) :
    (thenFG (fuel + 1) h p tag f g).1 = h.nextId
    ∧ ((thenFG (fuel + 1) h p tag f g).2).states h.nextId
        = some (match f v with
          | .ok r => { status := .resolved, value := some r, error := none,
                       handlers := [] }
          | .error e =>
            { status := .rejected, value := none,
              error := some (match g e with | .ok _ => e | .error e2 => e2),
              handlers := [] })
    ∧ ((thenFG (fuel + 1) h p tag f g).2).log
        = h.log ++ Ev.res tag v ::
            (match f v with | .ok _ => [] | .error e => [Ev.rej tag e])
    ∧ ((thenFG (fuel + 1) h p tag f g).2).states p = some st
    ∧ (∀ r, r ≠ p → r ≠ h.nextId →
        ((thenFG (fuel + 1) h p tag f g).2).states r = h.states r) := by
  have hfr : (freshP h).2.states p = some st := by
    rw [freshP_states_ne _ _ hp]; exact hst
  rw [thenFG]
  rw [show attachPair (fuel + 1) (freshP h).2 p (.attachP tag f g (freshP h).1) =
      runHandlerResolveF (settleR (fuel + 1)) (settleJ (fuel + 1)) (freshP h).2
        (.attachP tag f g (freshP h).1) v by
    rw [attachPair]
    simp only [hfr, hs, hv, Option.getD_some]]
  rw [runHandlerResolveF]
  have hqfresh : ((freshP h).2.pushLog (Ev.res tag v)).states h.nextId = some {} := by
    rw [pushLog_states]; exact freshP_states_self h
  cases hf : f v with
  | ok r =>
    simp only [freshP_fst]
    rw [show settleR (fuel + 1) ((freshP h).2.pushLog (Ev.res tag v)) h.nextId r =
        resolveP (fuel + 1) ((freshP h).2.pushLog (Ev.res tag v)) h.nextId r from rfl]
    rw [resolveP_pending_nohandlers fuel _ h.nextId r {} hqfresh rfl rfl]
    refine ⟨by trivial, ?_, ?_, ?_, ?_⟩
    · rw [update_states_self]
    · simp [Heap.pushLog]
    · rw [update_states_ne _ _ _ _ hp, pushLog_states, hfr]
    · intro r2 hr2p hr2n
      rw [update_states_ne _ _ _ _ hr2n, pushLog_states, freshP_states_ne _ _ hr2n]
  | error e =>
    simp only [freshP_fst]
    rw [runHandlerRejectF]
    have hqfresh2 : (((freshP h).2.pushLog (Ev.res tag v)).pushLog
        (Ev.rej tag e)).states h.nextId = some {} := by
      rw [pushLog_states]; exact hqfresh
    cases hg : g e with
    | ok u =>
      simp only []
      rw [show settleJ (fuel + 1) (((freshP h).2.pushLog (Ev.res tag v)).pushLog
            (Ev.rej tag e)) h.nextId e =
          rejectP (fuel + 1) (((freshP h).2.pushLog (Ev.res tag v)).pushLog
            (Ev.rej tag e)) h.nextId e from rfl]
      rw [rejectP_pending_nohandlers fuel _ h.nextId e {} hqfresh2 rfl rfl]
      refine ⟨by trivial, ?_, ?_, ?_, ?_⟩
      · rw [update_states_self]
      · simp [Heap.pushLog]
      · rw [update_states_ne _ _ _ _ hp, pushLog_states, pushLog_states, hfr]
      · intro r2 hr2p hr2n
        rw [update_states_ne _ _ _ _ hr2n, pushLog_states, pushLog_states,
            freshP_states_ne _ _ hr2n]
    | error e2 =>
      simp only []
      rw [show settleJ (fuel + 1) (((freshP h).2.pushLog (Ev.res tag v)).pushLog
            (Ev.rej tag e)) h.nextId e2 =
          rejectP (fuel + 1) (((freshP h).2.pushLog (Ev.res tag v)).pushLog
            (Ev.rej tag e)) h.nextId e2 from rfl]
      rw [rejectP_pending_nohandlers fuel _ h.nextId e2 {} hqfresh2 rfl rfl]
      refine ⟨by trivial, ?_, ?_, ?_, ?_⟩
      · rw [update_states_self]
      · simp [Heap.pushLog]
      · rw [update_states_ne _ _ _ _ hp, pushLog_states, pushLog_states, hfr]
      · intro r2 hr2p hr2n
        rw [update_states_ne _ _ _ _ hr2n, pushLog_states, pushLog_states,
            freshP_states_ne _ _ hr2n]

/-- `then` on an already rejected promise: the user on_reject observer fires
immediately, synchronously within the `then` call, with the stored error, and
the fresh downstream promise is rejected before the call returns (with the
original error, or with whatever the observer raised). -/
theorem thenFG_on_rejected (fuel : Nat) (h : Heap) (p : Nat) (tag : Nat)
    (f : PVal → Except Nat PVal) (g : Nat → Except Nat Unit) (st : PState)
    (e : Nat) (hst : h.states p = some st) (hs : st.status = .rejected)
    (he : st.error = some e) (hp : p ≠ h.nextId) :
    (thenFG (fuel + 1) h p tag f g).1 = h.nextId
    ∧ ((thenFG (fuel + 1) h p tag f g).2).states h.nextId
        = some { status := .rejected, value := none,
                 error := some (match g e with | .ok _ => e | .error e2 => e2),
                 handlers := [] }
    ∧ ((thenFG (fuel + 1) h p tag f g).2).log = h.log ++ [Ev.rej tag e]
    ∧ ((thenFG (fuel + 1) h p tag f g).2).states p = some st
    ∧ (∀ r, r ≠ p → r ≠ h.nextId →
        ((thenFG (fuel + 1) h p tag f g).2).states r = h.states r) := by
  have hfr : (freshP h).2.states p = some st := by
    rw [freshP_states_ne _ _ hp]; exact hst
  rw [thenFG]
  rw [show attachPair (fuel + 1) (freshP h).2 p (.attachP tag f g (freshP h).1) =
      runHandlerRejectF (settleJ (fuel + 1)) (freshP h).2
        (.attachP tag f g (freshP h).1) e by
    rw [attachPair]
    simp only [hfr, hs, he, Option.getD_some]]
  rw [runHandlerRejectF]
  have hqfresh : ((freshP h).2.pushLog (Ev.rej tag e)).states h.nextId = some {} := by
    rw [pushLog_states]; exact freshP_states_self h
  cases hg : g e with
  | ok u =>
    simp only [freshP_fst]
    rw [show settleJ (fuel + 1) ((freshP h).2.pushLog (Ev.rej tag e)) h.nextId e =
        rejectP (fuel + 1) ((freshP h).2.pushLog (Ev.rej tag e)) h.nextId e from rfl]
    rw [rejectP_pending_nohandlers fuel _ h.nextId e {} hqfresh rfl rfl]
    refine ⟨by trivial, ?_, ?_, ?_, ?_⟩
    · rw [update_states_self]
    · simp [Heap.pushLog]
    · rw [update_states_ne _ _ _ _ hp, pushLog_states, hfr]
    · intro r2 hr2p hr2n
      rw [update_states_ne _ _ _ _ hr2n, pushLog_states, freshP_states_ne _ _ hr2n]
  | error e2 =>
    simp only [freshP_fst]
    rw [show settleJ (fuel + 1) ((freshP h).2.pushLog (Ev.rej tag e)) h.nextId e2 =
        rejectP (fuel + 1) ((freshP h).2.pushLog (Ev.rej tag e)) h.nextId e2 from rfl]
    rw [rejectP_pending_nohandlers fuel _ h.nextId e2 {} hqfresh rfl rfl]
    refine ⟨by trivial, ?_, ?_, ?_, ?_⟩
    · rw [update_states_self]
    · simp [Heap.pushLog]
    · rw [update_states_ne _ _ _ _ hp, pushLog_states, hfr]
    · intro r2 hr2p hr2n
      rw [update_states_ne _ _ _ _ hr2n, pushLog_states, freshP_states_ne _ _ hr2n]

/- ---------------------------------------------------------------------------
Claim theorems.
--------------------------------------------------------------------------- -/

/-- Common scenario for the `then`/`fail` claims: a fresh promise `p` is
created in an arbitrary heap `h` (so `p = h.nextId`), and one continuation
pair is attached to it with ghost tag 0; the downstream promise is
`h.nextId + 1`.  This bundles the bookkeeping facts needed to apply the
one-handler settlement lemmas. -/
theorem thenFG_fresh_scenario (fuel : Nat) (h : Heap) (tag : Nat)
    (f : PVal → Except Nat PVal) (g : Nat → Except Nat Unit) :
    (thenFG fuel (freshP h).2 h.nextId tag f g).1 = h.nextId + 1
    ∧ ((thenFG fuel (freshP h).2 h.nextId tag f g).2).states h.nextId =
        some { status := .pending, value := none, error := none,
               handlers := [Handler.attachP tag f g (h.nextId + 1)] }
    ∧ ((thenFG fuel (freshP h).2 h.nextId tag f g).2).states (h.nextId + 1) = some {}
    ∧ ((thenFG fuel (freshP h).2 h.nextId tag f g).2).log = h.log := by
  have hp1 : (freshP h).2.states h.nextId = some {} := freshP_states_self h
  have hne : h.nextId ≠ (freshP h).2.nextId := by
    rw [freshP_nextId]
    exact Nat.ne_of_lt (Nat.lt_succ_self _)
  obtain ⟨ht1, ht2, ht3, ht4, ht5, ht6, ht7⟩ :=
    thenFG_pending fuel (freshP h).2 h.nextId tag f g {} hp1 rfl hne
  rw [freshP_nextId] at ht1 ht2 ht3
  exact ⟨ht1, ht2, ht3, ht5⟩

/-- C1: a freshly created placeholder is pending with empty storage, error and
queue; on a pending state the first resolve or reject (through any handle
copy, which in the model is the same state id) returns true and settles the
state with the given value or error; after that first settlement, and more
generally on any non-pending state, every further resolve or reject call
returns false and leaves the whole heap (hence the stored status, value and
error) unchanged. -/
theorem C1_settle_at_most_once (fuel fuel2 : Nat) (h : Heap) (p : Nat)
    (st : PState) (v v2 : PVal) (e e2 : Nat) :
    ((freshP h).2.states h.nextId =
       some { status := .pending, value := none, error := none, handlers := [] })
    ∧ (h.states p = some st → st.status = .pending →
        (resolveP (fuel + 1) h p v).1 = true
        ∧ ((resolveP (fuel + 1) h p v).2).states p
            = some { st with status := .resolved, value := some v, handlers := [] }
        ∧ (rejectP (fuel + 1) h p e).1 = true
        ∧ ((rejectP (fuel + 1) h p e).2).states p
            = some { st with status := .rejected, error := some e, handlers := [] }
        ∧ resolveP fuel2 ((resolveP (fuel + 1) h p v).2) p v2
            = (false, (resolveP (fuel + 1) h p v).2)
        ∧ rejectP fuel2 ((resolveP (fuel + 1) h p v).2) p e2
            = (false, (resolveP (fuel + 1) h p v).2)
        ∧ resolveP fuel2 ((rejectP (fuel + 1) h p e).2) p v2
            = (false, (rejectP (fuel + 1) h p e).2)
        ∧ rejectP fuel2 ((rejectP (fuel + 1) h p e).2) p e2
            = (false, (rejectP (fuel + 1) h p e).2))
    ∧ (h.states p = some st → st.status ≠ .pending →
        resolveP fuel h p v = (false, h) ∧ rejectP fuel h p e = (false, h)) := by
  refine ⟨by simp [freshP], ?_, ?_⟩
  · intro hst hs
    obtain ⟨hr1, hr2⟩ := resolveP_pending_self fuel h p v st hst hs
    obtain ⟨hj1, hj2⟩ := rejectP_pending_self fuel h p e st hst hs
    refine ⟨hr1, hr2, hj1, hj2, ?_, ?_, ?_, ?_⟩
    · exact resolveP_not_pending _ _ _ _ _ hr2 (by simp)
    · exact rejectP_not_pending _ _ _ _ _ hr2 (by simp)
    · exact resolveP_not_pending _ _ _ _ _ hj2 (by simp)
    · exact rejectP_not_pending _ _ _ _ _ hj2 (by simp)
  · intro hst hs
    exact ⟨resolveP_not_pending _ _ _ _ _ hst hs,
           rejectP_not_pending _ _ _ _ _ hst hs⟩

/-- C3: for a fresh promise `p` and a plain-value continuation `f` attached by
the one-argument `then` (downstream promise `q = p + 1`): if `p` resolves with
`v` and `f v` returns `w`, then `q` resolves with `w`; if `p` rejects with
`e`, then `q` rejects with the same error `e` and `f` is never invoked (the
ghost log records only the no-op reject observer event, no resolve-side
event). -/
theorem C3_then_maps_value (fuel : Nat) (h : Heap)
    (f : PVal → Except Nat PVal) (v w : PVal) (e : Nat)
    (hf : f v = Except.ok w) :
    (then1 (fuel + 2) (freshP h).2 h.nextId 0 f).1 = h.nextId + 1
    ∧ ((resolveP (fuel + 2)
          (then1 (fuel + 2) (freshP h).2 h.nextId 0 f).2 h.nextId v).2).states
        (h.nextId + 1)
        = some { status := .resolved, value := some w, error := none,
                 handlers := [] }
    ∧ ((rejectP (fuel + 2)
          (then1 (fuel + 2) (freshP h).2 h.nextId 0 f).2 h.nextId e).2).states
        (h.nextId + 1)
        = some { status := .rejected, value := none, error := some e,
                 handlers := [] }
    ∧ ((rejectP (fuel + 2)
          (then1 (fuel + 2) (freshP h).2 h.nextId 0 f).2 h.nextId e).2).log
        = h.log ++ [Ev.rej 0 e] := by
  simp only [then1]
  obtain ⟨hs1, hs2, hs3, hs4⟩ :=
    thenFG_fresh_scenario (fuel + 2) h 0 f (fun _ => Except.ok ())
  have hpq : h.nextId ≠ h.nextId + 1 := Nat.ne_of_lt (Nat.lt_succ_self _)
  obtain ⟨hr1, hr2, hr3, hr4, hr5⟩ :=
    resolve_one_attachP fuel _ h.nextId (h.nextId + 1) 0 f
      (fun _ => Except.ok ()) v _ hs2 rfl rfl hs3 hpq
  obtain ⟨hj1, hj2, hj3, hj4, hj5⟩ :=
    reject_one_attachP fuel _ h.nextId (h.nextId + 1) 0 f
      (fun _ => Except.ok ()) e _ hs2 rfl rfl hs3 hpq
  rw [hf] at hr3
  refine ⟨hs1, hr3, hj3, ?_⟩
  rw [hj4, hs4]

/-- C4: if `p` resolves and the continuation `f` inside the one-argument
`then` raises `c`, the downstream promise `q = p + 1` rejects with `c`; the
raise propagates neither out of the settlement call (`resolveP` returns
normally with `true`) nor out of the `then` call when `p` was already resolved
(`then1` returns normally and `q` is already rejected with `c` when it
returns). -/
theorem C4_then_captures_raise (fuel : Nat) (h : Heap)
    (f : PVal → Except Nat PVal) (v : PVal) (c : Nat)
    (hf : f v = Except.error c) :
    ((resolveP (fuel + 2)
        (then1 (fuel + 2) (freshP h).2 h.nextId 0 f).2 h.nextId v).1 = true
     ∧ ((resolveP (fuel + 2)
          (then1 (fuel + 2) (freshP h).2 h.nextId 0 f).2 h.nextId v).2).states
        (h.nextId + 1)
        = some { status := .rejected, value := none, error := some c,
                 handlers := [] }
     ∧ ((resolveP (fuel + 2)
          (then1 (fuel + 2) (freshP h).2 h.nextId 0 f).2 h.nextId v).2).log
        = h.log ++ [Ev.res 0 v, Ev.rej 0 c])
    ∧ (((then1 (fuel + 1)
          (resolveP (fuel + 1) (freshP h).2 h.nextId v).2 h.nextId 0 f).2).states
        ((resolveP (fuel + 1) (freshP h).2 h.nextId v).2.nextId)
        = some { status := .rejected, value := none, error := some c,
                 handlers := [] }) := by
  constructor
  · simp only [then1]
    obtain ⟨hs1, hs2, hs3, hs4⟩ :=
      thenFG_fresh_scenario (fuel + 2) h 0 f (fun _ => Except.ok ())
    have hpq : h.nextId ≠ h.nextId + 1 := Nat.ne_of_lt (Nat.lt_succ_self _)
    obtain ⟨hr1, hr2, hr3, hr4, hr5⟩ :=
      resolve_one_attachP fuel _ h.nextId (h.nextId + 1) 0 f
        (fun _ => Except.ok ()) v _ hs2 rfl rfl hs3 hpq
    rw [hf] at hr3 hr4
    refine ⟨hr1, hr3, ?_⟩
    rw [hr4, hs4]
  · simp only [then1]
    have hres := resolveP_pending_nohandlers fuel (freshP h).2 h.nextId v {}
      (freshP_states_self h) rfl rfl
    set h2 := ((freshP h).2.update h.nextId
      { status := .resolved, value := some v, error := none, handlers := [] })
      with hh2
    have h2eq : (resolveP (fuel + 1) (freshP h).2 h.nextId v).2 = h2 := by
      rw [hres]
    rw [h2eq]
    have hstp : h2.states h.nextId
        = some { status := .resolved, value := some v, error := none,
                 handlers := [] } := by
      rw [hh2, update_states_self]
    have hpn : h.nextId ≠ h2.nextId := by
      rw [hh2, update_nextId, freshP_nextId]
      exact Nat.ne_of_lt (Nat.lt_succ_self _)
    obtain ⟨ha1, ha2, ha3, ha4, ha5⟩ :=
      thenFG_on_resolved fuel h2 h.nextId 0 f (fun _ => Except.ok ()) _ v
        hstp rfl rfl hpn
    rw [hf] at ha2
    exact ha2

/-- Witness for C3 at concrete inputs: a continuation that adds one, the
upstream resolved with 4 rejects becoming 5 downstream, and the reject path
carries error 9 through unchanged. -/
theorem C3_then_maps_value_witness :
    ((resolveP 2 (then1 2 (freshP emptyHeap).2 0 0
        (fun x => match x with
          | .nat n => Except.ok (.nat (n + 1))
          | _ => Except.ok .unit)).2 0 (.nat 4)).2).states 1
      = some { status := .resolved, value := some (.nat 5), error := none,
               handlers := [] }
    ∧ ((rejectP 2 (then1 2 (freshP emptyHeap).2 0 0
        (fun x => match x with
          | .nat n => Except.ok (.nat (n + 1))
          | _ => Except.ok .unit)).2 0 9).2).states 1
      = some { status := .rejected, value := none, error := some 9,
               handlers := [] } := by
  have hmain := C3_then_maps_value 0 emptyHeap
    (fun x => match x with
      | .nat n => Except.ok (.nat (n + 1))
      | _ => Except.ok .unit) (.nat 4) (.nat 5) 9 (by rfl)
  exact ⟨hmain.2.1, hmain.2.2.1⟩

/-- Witness for C4 at concrete inputs: a continuation that always raises 13;
the downstream promise rejects with 13 on both attachment orders. -/
theorem C4_then_captures_raise_witness :
    ((resolveP 2 (then1 2 (freshP emptyHeap).2 0 0
        (fun _ => Except.error 13)).2 0 (.nat 4)).1 = true)
    ∧ ((resolveP 2 (then1 2 (freshP emptyHeap).2 0 0
        (fun _ => Except.error 13)).2 0 (.nat 4)).2).states 1
      = some { status := .rejected, value := none, error := some 13,
               handlers := [] } := by
  have hmain := C4_then_captures_raise 0 emptyHeap
    (fun _ => Except.error 13) (.nat 4) 13 (by rfl)
  exact ⟨hmain.1.1, hmain.1.2.1⟩

/-- C5: for a fresh promise `p` with `then(on_resolve, on_reject)` attached
(downstream `q = p + 1`), when `p` rejects with `e`: the observer `g` is
invoked exactly once with `e` (ghost log); if `g` returns normally the
downstream is rejected with the original error `e`, and if `g` raises the
downstream is rejected with the newly raised condition instead - expressed by
the match on `g e` in the stored error. -/
theorem C5_then_reject_observer (fuel : Nat) (h : Heap)
    (f : PVal → Except Nat PVal) (g : Nat → Except Nat Unit) (e : Nat) :
    (thenFG (fuel + 2) (freshP h).2 h.nextId 0 f g).1 = h.nextId + 1
    ∧ ((rejectP (fuel + 2)
          (thenFG (fuel + 2) (freshP h).2 h.nextId 0 f g).2 h.nextId e).2).log
        = h.log ++ [Ev.rej 0 e]
    ∧ ((rejectP (fuel + 2)
          (thenFG (fuel + 2) (freshP h).2 h.nextId 0 f g).2 h.nextId e).2).states
        (h.nextId + 1)
        = some { status := .rejected, value := none,
                 error := some (match g e with | .ok _ => e | .error e2 => e2),
                 handlers := [] } := by
  obtain ⟨hs1, hs2, hs3, hs4⟩ := thenFG_fresh_scenario (fuel + 2) h 0 f g
  have hpq : h.nextId ≠ h.nextId + 1 := Nat.ne_of_lt (Nat.lt_succ_self _)
  obtain ⟨hj1, hj2, hj3, hj4, hj5⟩ :=
    reject_one_attachP fuel _ h.nextId (h.nextId + 1) 0 f g e _ hs2 rfl rfl hs3 hpq
  refine ⟨hs1, ?_, hj3⟩
  rw [hj4, hs4]

/-- C8: `fail(g)` keeps the payload: on a fresh promise `p` with `fail(g)`
attached (downstream `q = p + 1`): if `p` resolves with `v`, the handler `g`
is never invoked (the log gains exactly the resolve-side event of the identity
pass-through) and `q` resolves with the same value `v`; if `p` rejects with
`e`, `g` is invoked exactly once with `e` and `q` is rejected with `e` (or
with what `g` raised, if it raises). -/
theorem C8_fail_observes_errors (fuel : Nat) (h : Heap)
    (g : Nat → Except Nat Unit) (v : PVal) (e : Nat) :
    (failP (fuel + 2) (freshP h).2 h.nextId 0 g).1 = h.nextId + 1
    ∧ ((resolveP (fuel + 2)
          (failP (fuel + 2) (freshP h).2 h.nextId 0 g).2 h.nextId v).2).states
        (h.nextId + 1)
        = some { status := .resolved, value := some v, error := none,
                 handlers := [] }
    ∧ ((resolveP (fuel + 2)
          (failP (fuel + 2) (freshP h).2 h.nextId 0 g).2 h.nextId v).2).log
        = h.log ++ [Ev.res 0 v]
    ∧ ((rejectP (fuel + 2)
          (failP (fuel + 2) (freshP h).2 h.nextId 0 g).2 h.nextId e).2).states
        (h.nextId + 1)
        = some { status := .rejected, value := none,
                 error := some (match g e with | .ok _ => e | .error e2 => e2),
                 handlers := [] }
    ∧ ((rejectP (fuel + 2)
          (failP (fuel + 2) (freshP h).2 h.nextId 0 g).2 h.nextId e).2).log
        = h.log ++ [Ev.rej 0 e] := by
  simp only [failP]
  obtain ⟨hs1, hs2, hs3, hs4⟩ :=
    thenFG_fresh_scenario (fuel + 2) h 0 (fun v => Except.ok v) g
  have hpq : h.nextId ≠ h.nextId + 1 := Nat.ne_of_lt (Nat.lt_succ_self _)
  obtain ⟨hr1, hr2, hr3, hr4, hr5⟩ :=
    resolve_one_attachP fuel _ h.nextId (h.nextId + 1) 0 (fun v => Except.ok v)
      g v _ hs2 rfl rfl hs3 hpq
  obtain ⟨hj1, hj2, hj3, hj4, hj5⟩ :=
    reject_one_attachP fuel _ h.nextId (h.nextId + 1) 0 (fun v => Except.ok v)
      g e _ hs2 rfl rfl hs3 hpq
  refine ⟨hs1, hr3, ?_, hj3, ?_⟩
  · rw [hr4, hs4]
  · rw [hj4, hs4]

/-- C9: in the two-argument `then(on_resolve, on_reject)`, the on_reject
observer also sees faults raised by on_resolve: when `p` resolves with `v` and
`f v` raises `c`, the log shows `f` invoked with `v` and then `g` invoked with
`c`, before the downstream `q = p + 1` ends up rejected (with `c` if `g`
returned normally, or with what `g` raised). -/
theorem C9_reject_observes_resolve_fault (fuel : Nat) (h : Heap)
    (f : PVal → Except Nat PVal) (g : Nat → Except Nat Unit) (v : PVal)
    (c : Nat) (hf : f v = Except.error c) :
    ((resolveP (fuel + 2)
        (thenFG (fuel + 2) (freshP h).2 h.nextId 0 f g).2 h.nextId v).2).log
      = h.log ++ [Ev.res 0 v, Ev.rej 0 c]
    ∧ ((resolveP (fuel + 2)
        (thenFG (fuel + 2) (freshP h).2 h.nextId 0 f g).2 h.nextId v).2).states
        (h.nextId + 1)
      = some { status := .rejected, value := none,
               error := some (match g c with | .ok _ => c | .error e2 => e2),
               handlers := [] } := by
  obtain ⟨hs1, hs2, hs3, hs4⟩ := thenFG_fresh_scenario (fuel + 2) h 0 f g
  have hpq : h.nextId ≠ h.nextId + 1 := Nat.ne_of_lt (Nat.lt_succ_self _)
  obtain ⟨hr1, hr2, hr3, hr4, hr5⟩ :=
    resolve_one_attachP fuel _ h.nextId (h.nextId + 1) 0 f g v _ hs2 rfl rfl
      hs3 hpq
  rw [hf] at hr3 hr4
  refine ⟨?_, hr3⟩
  rw [hr4, hs4]

/-- Witness for C9 at concrete inputs: on_resolve raises 13, the observer sees
13 and returns normally, the downstream is rejected with 13. -/
theorem C9_reject_observes_resolve_fault_witness :
    ((resolveP 2
        (thenFG 2 (freshP emptyHeap).2 0 0 (fun _ => Except.error 13)
          (fun _ => Except.ok ())).2 0 (.nat 4)).2).log
      = [Ev.res 0 (.nat 4), Ev.rej 0 13]
    ∧ ((resolveP 2
        (thenFG 2 (freshP emptyHeap).2 0 0 (fun _ => Except.error 13)
          (fun _ => Except.ok ())).2 0 (.nat 4)).2).states 1
      = some { status := .rejected, value := none, error := some 13,
               handlers := [] } := by
  have hmain := C9_reject_observes_resolve_fault 0 emptyHeap
    (fun _ => Except.error 13) (fun _ => Except.ok ()) (.nat 4) 13 (by rfl)
  exact ⟨hmain.1, hmain.2⟩

/-- Witness for C1 at concrete inputs: one fresh promise, resolved with
`nat 5`, then attacked again with a resolve and a reject, both refused. -/
theorem C1_settle_at_most_once_witness :
    (resolveP 1 (blankHeap 1) 0 (.nat 5)).1 = true
    ∧ ((resolveP 1 (blankHeap 1) 0 (.nat 5)).2).states 0
        = some { status := .resolved, value := some (.nat 5), error := none,
                 handlers := [] }
    ∧ resolveP 1 ((resolveP 1 (blankHeap 1) 0 (.nat 5)).2) 0 (.nat 6)
        = (false, (resolveP 1 (blankHeap 1) 0 (.nat 5)).2)
    ∧ rejectP 1 ((resolveP 1 (blankHeap 1) 0 (.nat 5)).2) 0 7
        = (false, (resolveP 1 (blankHeap 1) 0 (.nat 5)).2) := by
  have hmain := (C1_settle_at_most_once 0 1 (blankHeap 1) 0 {} (.nat 5) (.nat 6)
    7 7).2.1 (by rfl) (by rfl)
  exact ⟨hmain.1, hmain.2.1, hmain.2.2.2.2.1, hmain.2.2.2.2.2.1⟩

/-- C10: for an initiator passed to `make_promise` that settles the result
promise (through the resolver or rejector callable) and then raises `e`: the
catch branch of `make_promise` tries to reject the already settled promise,
which the at-most-once rule refuses without changing anything, so the returned
promise keeps the heap exactly as the initiator left it - in particular the
first settlement`s status, value and error. -/
theorem C10_make_promise_settle_then_raise (fuel : Nat) (h : Heap)
    (init : (PVal → Heap → Bool × Heap) → (Nat → Heap → Bool × Heap) →
            Heap → Heap × Option Nat)
    (e : Nat) (st : PState)
    (hraise : (init (mkResolver fuel h.nextId) (mkRejector fuel h.nextId)
        (freshP h).2).2 = some e)
    (hsettled : ((init (mkResolver fuel h.nextId) (mkRejector fuel h.nextId)
        (freshP h).2).1).states h.nextId = some st)
    (hnp : st.status ≠ .pending) :
    make_promise fuel h init
      = (h.nextId,
         (init (mkResolver fuel h.nextId) (mkRejector fuel h.nextId)
           (freshP h).2).1)
    ∧ ((make_promise fuel h init).2).states h.nextId = some st := by
  rcases hr : init (mkResolver fuel h.nextId) (mkRejector fuel h.nextId)
      (freshP h).2 with ⟨h2, oe⟩
  rw [hr] at hraise hsettled
  simp only at hraise hsettled
  subst hraise
  have hmp : make_promise fuel h init = (h.nextId, (rejectP fuel h2 h.nextId e).2) := by
    rw [make_promise, hr]
  rw [rejectP_not_pending fuel h2 h.nextId e st hsettled hnp] at hmp
  rw [hmp]
  exact ⟨rfl, hsettled⟩

/-- Witness for C10 at concrete inputs: an initiator that resolves with
`nat 5` and then raises 9; the resulting promise is resolved with `nat 5` and
the raise changes nothing. -/
theorem C10_make_promise_settle_then_raise_witness :
    make_promise 1 emptyHeap
        (fun res _ hh => ((res (.nat 5) hh).2, some 9))
      = (0, (resolveP 1 (freshP emptyHeap).2 0 (.nat 5)).2)
    ∧ ((make_promise 1 emptyHeap
        (fun res _ hh => ((res (.nat 5) hh).2, some 9))).2).states 0
      = some { status := .resolved, value := some (.nat 5), error := none,
               handlers := [] } := by
  have hmain := C10_make_promise_settle_then_raise 1 emptyHeap
    (fun res _ hh => ((res (.nat 5) hh).2, some 9)) 9
    { status := .resolved, value := some (.nat 5), error := none, handlers := [] }
    (by rfl) (by rfl) (by simp)
  exact hmain

/-- Attaching a sequence of pairs to a pending promise `p` queues exactly the
corresponding `attachP` handlers, in attachment order, each with a fresh
pending downstream promise; nothing fires and nothing else changes. -/
theorem attachSeq_spec (fuel : Nat) :
    ∀ (prs : List UserPair) (h : Heap) (p : Nat) (t0 : Nat) (st : PState),
    h.states p = some st → st.status = .pending → p < h.nextId →
    ((attachSeq fuel h p t0 prs).states p
        = some { st with handlers := st.handlers ++ mkHandlers t0 h.nextId prs })
    ∧ (∀ i, i < prs.length →
        (attachSeq fuel h p t0 prs).states (h.nextId + i) = some {})
    ∧ (attachSeq fuel h p t0 prs).log = h.log
    ∧ (attachSeq fuel h p t0 prs).nextId = h.nextId + prs.length
    ∧ (∀ q, q ≠ p → q < h.nextId →
        (attachSeq fuel h p t0 prs).states q = h.states q) := by
  intro prs
  induction prs with
  | nil =>
    intro h p t0 st hst hs hp
    refine ⟨?_, ?_, rfl, rfl, ?_⟩
    · rw [attachSeq, mkHandlers]
      simp [hst]
    · intro i hi; exact absurd hi (by simp)
    · intro q hq hql; rfl
  | cons pr rest ih =>
    intro h p t0 st hst hs hp
    have hpn : p ≠ h.nextId := Nat.ne_of_lt hp
    obtain ⟨ht1, ht2, ht3, ht4, ht5, ht6, ht7⟩ :=
      thenFG_pending fuel h p t0 pr.1 pr.2 st hst hs hpn
    rw [attachSeq]
    have hplt : p < ((thenFG fuel h p t0 pr.1 pr.2).2).nextId := by
      rw [ht6]; omega
    obtain ⟨ih1, ih2, ih3, ih4, ih5⟩ := ih (thenFG fuel h p t0 pr.1 pr.2).2 p
      (t0 + 1) _ ht2 hs hplt
    rw [ht6] at ih1 ih2 ih4
    refine ⟨?_, ?_, ?_, ?_, ?_⟩
    · rw [ih1, mkHandlers]
      simp [List.append_assoc]
    · intro i hi
      have hlen : (pr :: rest).length = rest.length + 1 := rfl
      rw [hlen] at hi
      cases i with
      | zero =>
        have hfr := ih5 h.nextId (Ne.symm hpn) (by rw [ht6]; omega)
        simpa using hfr.trans ht3
      | succ j =>
        have hj : j < rest.length := by omega
        have := ih2 j hj
        rw [show h.nextId + (j + 1) = h.nextId + 1 + j by omega]
        exact this
    · rw [ih3, ht5]
    · have hlen : (pr :: rest).length = rest.length + 1 := rfl
      rw [ih4, hlen]
      omega
    · intro q hq hql
      have h1 := ih5 q hq (by rw [ht6]; omega)
      rw [h1, ht4 q hq (Nat.ne_of_lt hql)]

/-- Effect of the resolve side of one freshly attached `attachP` pair on a
fresh downstream: the on_resolve event (and on raise, the observer event) is
logged, only the downstream state changes. -/
theorem runHandlerResolveF_attachP_fresh (fuel : Nat) (h : Heap) (t0 : Nat)
    (q0 : Nat) (f : PVal → Except Nat PVal) (g : Nat → Except Nat Unit)
    (v : PVal) (hq0 : h.states q0 = some {}) :
    ((runHandlerResolveF (settleR (fuel + 1)) (settleJ (fuel + 1)) h
        (.attachP t0 f g q0) v).log
      = h.log ++ Ev.res t0 v ::
          (match f v with | .ok _ => [] | .error e => [Ev.rej t0 e]))
    ∧ (∀ q, q ≠ q0 →
        (runHandlerResolveF (settleR (fuel + 1)) (settleJ (fuel + 1)) h
          (.attachP t0 f g q0) v).states q = h.states q) := by
  rw [runHandlerResolveF]
  cases hf : f v with
  | ok r =>
    simp only []
    have hq1 : (h.pushLog (Ev.res t0 v)).states q0 = some {} := by
      rw [pushLog_states]; exact hq0
    rw [show settleR (fuel + 1) (h.pushLog (Ev.res t0 v)) q0 r =
        resolveP (fuel + 1) (h.pushLog (Ev.res t0 v)) q0 r from rfl]
    rw [resolveP_pending_nohandlers fuel _ q0 r {} hq1 rfl rfl]
    constructor
    · simp [Heap.pushLog]
    · intro q hq
      rw [update_states_ne _ _ _ _ hq, pushLog_states]
  | error e =>
    simp only []
    rw [runHandlerRejectF]
    have hq1 : ((h.pushLog (Ev.res t0 v)).pushLog (Ev.rej t0 e)).states q0
        = some {} := by
      rw [pushLog_states, pushLog_states]; exact hq0
    cases hg : g e with
    | ok u =>
      simp only []
      rw [show settleJ (fuel + 1) ((h.pushLog (Ev.res t0 v)).pushLog (Ev.rej t0 e))
            q0 e =
          rejectP (fuel + 1) ((h.pushLog (Ev.res t0 v)).pushLog (Ev.rej t0 e))
            q0 e from rfl]
      rw [rejectP_pending_nohandlers fuel _ q0 e {} hq1 rfl rfl]
      constructor
      · simp [Heap.pushLog]
      · intro q hq
        rw [update_states_ne _ _ _ _ hq, pushLog_states, pushLog_states]
    | error e2 =>
      simp only []
      rw [show settleJ (fuel + 1) ((h.pushLog (Ev.res t0 v)).pushLog (Ev.rej t0 e))
            q0 e2 =
          rejectP (fuel + 1) ((h.pushLog (Ev.res t0 v)).pushLog (Ev.rej t0 e))
            q0 e2 from rfl]
      rw [rejectP_pending_nohandlers fuel _ q0 e2 {} hq1 rfl rfl]
      constructor
      · simp [Heap.pushLog]
      · intro q hq
        rw [update_states_ne _ _ _ _ hq, pushLog_states, pushLog_states]

/-- Effect of the reject side of one freshly attached `attachP` pair on a
fresh downstream: exactly the observer event is logged, only the downstream
state changes. -/
theorem runHandlerRejectF_attachP_fresh (fuel : Nat) (h : Heap) (t0 : Nat)
    (q0 : Nat) (f : PVal → Except Nat PVal) (g : Nat → Except Nat Unit)
    (e : Nat) (hq0 : h.states q0 = some {}) :
    ((runHandlerRejectF (settleJ (fuel + 1)) h (.attachP t0 f g q0) e).log
      = h.log ++ [Ev.rej t0 e])
    ∧ (∀ q, q ≠ q0 →
        (runHandlerRejectF (settleJ (fuel + 1)) h (.attachP t0 f g q0) e).states q
          = h.states q) := by
  rw [runHandlerRejectF]
  have hq1 : (h.pushLog (Ev.rej t0 e)).states q0 = some {} := by
    rw [pushLog_states]; exact hq0
  cases hg : g e with
  | ok u =>
    simp only []
    rw [show settleJ (fuel + 1) (h.pushLog (Ev.rej t0 e)) q0 e =
        rejectP (fuel + 1) (h.pushLog (Ev.rej t0 e)) q0 e from rfl]
    rw [rejectP_pending_nohandlers fuel _ q0 e {} hq1 rfl rfl]
    constructor
    · simp [Heap.pushLog]
    · intro q hq
      rw [update_states_ne _ _ _ _ hq, pushLog_states]
  | error e2 =>
    simp only []
    rw [show settleJ (fuel + 1) (h.pushLog (Ev.rej t0 e)) q0 e2 =
        rejectP (fuel + 1) (h.pushLog (Ev.rej t0 e)) q0 e2 from rfl]
    rw [rejectP_pending_nohandlers fuel _ q0 e2 {} hq1 rfl rfl]
    constructor
    · simp [Heap.pushLog]
    · intro q hq
      rw [update_states_ne _ _ _ _ hq, pushLog_states]

/-- Running a queue of `attachP` handlers with fresh downstreams on the
resolve side: the ghost log grows by exactly `resLogOf` (each on_resolve once,
in attachment order, with the settlement value), and only the downstream
states change. -/
theorem runList_mkHandlers_res (fuel : Nat) :
    ∀ (prs : List UserPair) (h : Heap) (t0 : Nat) (q0 : Nat) (v : PVal),
    (∀ i, i < prs.length → h.states (q0 + i) = some {}) →
    ((runListResF (settleR (fuel + 1)) (settleJ (fuel + 1)) h
        (mkHandlers t0 q0 prs) v).log = h.log ++ resLogOf t0 v prs)
    ∧ (∀ q, q < q0 ∨ q0 + prs.length ≤ q →
        (runListResF (settleR (fuel + 1)) (settleJ (fuel + 1)) h
          (mkHandlers t0 q0 prs) v).states q = h.states q) := by
  intro prs
  induction prs with
  | nil =>
    intro h t0 q0 v hfresh
    exact ⟨by simp [mkHandlers, runListResF, resLogOf], fun q hq => rfl⟩
  | cons pr rest ih =>
    intro h t0 q0 v hfresh
    have hq0 : h.states q0 = some {} := by
      have := hfresh 0 (by simp)
      rwa [Nat.add_zero] at this
    obtain ⟨hh1log, hh1st⟩ :=
      runHandlerResolveF_attachP_fresh fuel h t0 q0 pr.1 pr.2 v hq0
    rw [mkHandlers, runListResF]
    set h1 := runHandlerResolveF (settleR (fuel + 1)) (settleJ (fuel + 1)) h
      (.attachP t0 pr.1 pr.2 q0) v with hh1
    have hfr1 : ∀ i, i < rest.length → h1.states (q0 + 1 + i) = some {} := by
      intro i hi
      rw [hh1st (q0 + 1 + i) (by omega)]
      have := hfresh (i + 1) (by simpa using Nat.succ_lt_succ hi)
      rwa [show q0 + (i + 1) = q0 + 1 + i by omega] at this
    obtain ⟨ihlog, ihst⟩ := ih h1 (t0 + 1) (q0 + 1) v hfr1
    constructor
    · rw [ihlog, hh1log, resLogOf]
      simp [List.append_assoc]
    · intro q hq
      have hlen : (pr :: rest).length = rest.length + 1 := rfl
      rw [hlen] at hq
      have hneq : q ≠ q0 := by rcases hq with hlt | hge <;> omega
      have hcond : q < q0 + 1 ∨ q0 + 1 + rest.length ≤ q := by
        rcases hq with hlt | hge
        · left; omega
        · right; omega
      rw [ihst q hcond, hh1st q hneq]

/-- Running a queue of `attachP` handlers with fresh downstreams on the
reject side: the ghost log grows by exactly `rejLogOf` (each observer once, in
attachment order, with the error), and only the downstream states change. -/
theorem runList_mkHandlers_rej (fuel : Nat) :
    ∀ (prs : List UserPair) (h : Heap) (t0 : Nat) (q0 : Nat) (e : Nat),
    (∀ i, i < prs.length → h.states (q0 + i) = some {}) →
    ((runListRejF (settleJ (fuel + 1)) h (mkHandlers t0 q0 prs) e).log
        = h.log ++ rejLogOf t0 e prs)
    ∧ (∀ q, q < q0 ∨ q0 + prs.length ≤ q →
        (runListRejF (settleJ (fuel + 1)) h (mkHandlers t0 q0 prs) e).states q
          = h.states q) := by
  intro prs
  induction prs with
  | nil =>
    intro h t0 q0 e hfresh
    exact ⟨by simp [mkHandlers, runListRejF, rejLogOf], fun q hq => rfl⟩
  | cons pr rest ih =>
    intro h t0 q0 e hfresh
    have hq0 : h.states q0 = some {} := by
      have := hfresh 0 (by simp)
      rwa [Nat.add_zero] at this
    obtain ⟨hh1log, hh1st⟩ :=
      runHandlerRejectF_attachP_fresh fuel h t0 q0 pr.1 pr.2 e hq0
    rw [mkHandlers, runListRejF]
    set h1 := runHandlerRejectF (settleJ (fuel + 1)) h
      (.attachP t0 pr.1 pr.2 q0) e with hh1
    have hfr1 : ∀ i, i < rest.length → h1.states (q0 + 1 + i) = some {} := by
      intro i hi
      rw [hh1st (q0 + 1 + i) (by omega)]
      have := hfresh (i + 1) (by simpa using Nat.succ_lt_succ hi)
      rwa [show q0 + (i + 1) = q0 + 1 + i by omega] at this
    obtain ⟨ihlog, ihst⟩ := ih h1 (t0 + 1) (q0 + 1) e hfr1
    constructor
    · rw [ihlog, hh1log, rejLogOf]
      simp [List.append_assoc]
    · intro q hq
      have hlen : (pr :: rest).length = rest.length + 1 := rfl
      rw [hlen] at hq
      have hneq : q ≠ q0 := by rcases hq with hlt | hge <;> omega
      have hcond : q < q0 + 1 ∨ q0 + 1 + rest.length ≤ q := by
        rcases hq with hlt | hge
        · left; omega
        · right; omega
      rw [ihst q hcond, hh1st q hneq]

/-- C2: for a fresh promise `p` (in an arbitrary heap, so `p = h.nextId`) and
an arbitrary sequence of continuation pairs attached while pending (ghost tags
= attachment positions): resolving `p` with `v` fires every on_resolve exactly
once, in attachment order, with `v` (ghost log = `resLogOf 0 v prs`, which
lists one `res i v` event per pair, in order, plus the observer event of a
pair whose on_resolve raises); rejecting fires every observer exactly once, in
order, with `e`; after settlement the queue is cleared (handlers = []), so, by
the at-most-once rule of C1, nothing can fire twice; and a pair attached after
settlement fires immediately, exactly once, synchronously within the `then`
call, with the same final outcome - the on_resolve continuation with the
resolved value `v` on a resolved placeholder, the on_reject observer with the
stored error `e` on a rejected placeholder. -/
theorem C2_continuations_exactly_once (fuel : Nat) (h : Heap)
    (prs : List UserPair) (v : PVal) (e : Nat)
    (f2 : PVal → Except Nat PVal) (g2 : Nat → Except Nat Unit) (t : Nat) :
    ((resolveP (fuel + 2) (attachSeq (fuel + 2) (freshP h).2 h.nextId 0 prs)
        h.nextId v).2).log = h.log ++ resLogOf 0 v prs
    ∧ ((resolveP (fuel + 2) (attachSeq (fuel + 2) (freshP h).2 h.nextId 0 prs)
        h.nextId v).2).states h.nextId
      = some { status := .resolved, value := some v, error := none,
               handlers := [] }
    ∧ ((rejectP (fuel + 2) (attachSeq (fuel + 2) (freshP h).2 h.nextId 0 prs)
        h.nextId e).2).log = h.log ++ rejLogOf 0 e prs
    ∧ ((rejectP (fuel + 2) (attachSeq (fuel + 2) (freshP h).2 h.nextId 0 prs)
        h.nextId e).2).states h.nextId
      = some { status := .rejected, value := none, error := some e,
               handlers := [] }
    ∧ ((thenFG (fuel + 1)
          (resolveP (fuel + 2) (attachSeq (fuel + 2) (freshP h).2 h.nextId 0 prs)
            h.nextId v).2 h.nextId t f2 g2).2).log
      = ((resolveP (fuel + 2) (attachSeq (fuel + 2) (freshP h).2 h.nextId 0 prs)
            h.nextId v).2).log
        ++ Ev.res t v ::
            (match f2 v with | .ok _ => [] | .error e2 => [Ev.rej t e2])
    ∧ ((thenFG (fuel + 1)
          (rejectP (fuel + 2) (attachSeq (fuel + 2) (freshP h).2 h.nextId 0 prs)
            h.nextId e).2 h.nextId t f2 g2).2).log
      = ((rejectP (fuel + 2) (attachSeq (fuel + 2) (freshP h).2 h.nextId 0 prs)
            h.nextId e).2).log ++ [Ev.rej t e]
    ∧ ((thenFG (fuel + 1)
          (rejectP (fuel + 2) (attachSeq (fuel + 2) (freshP h).2 h.nextId 0 prs)
            h.nextId e).2 h.nextId t f2 g2).2).states
        ((rejectP (fuel + 2) (attachSeq (fuel + 2) (freshP h).2 h.nextId 0 prs)
            h.nextId e).2).nextId
      = some { status := .rejected, value := none,
               error := some (match g2 e with | .ok _ => e | .error e2 => e2),
               handlers := [] } := by
  have hp1 : (freshP h).2.states h.nextId = some {} := freshP_states_self h
  have hplt : h.nextId < (freshP h).2.nextId := by
    rw [freshP_nextId]; omega
  obtain ⟨hA1, hA2, hA3, hA4, hA5⟩ :=
    attachSeq_spec (fuel + 2) prs (freshP h).2 h.nextId 0 {} hp1 rfl hplt
  rw [freshP_nextId] at hA1 hA2 hA4
  rw [freshP_log] at hA3
  set h2 := attachSeq (fuel + 2) (freshP h).2 h.nextId 0 prs with hh2
  have hA1s : h2.states h.nextId =
      some { status := .pending, value := none, error := none,
             handlers := mkHandlers 0 (h.nextId + 1) prs } := by
    rw [hA1]; rfl
  -- resolve path
  have hresolve :
      resolveP ((fuel + 1) + 1) h2 h.nextId v =
        (true,
         clearHandlers
           (runListResF (settleR (fuel + 1)) (settleJ (fuel + 1))
             (h2.update h.nextId
               { status := .resolved, value := some v, error := none,
                 handlers := mkHandlers 0 (h.nextId + 1) prs })
             (mkHandlers 0 (h.nextId + 1) prs) v) h.nextId) :=
    resolveP_pending (fuel + 1) h2 h.nextId v _ hA1s rfl
  have hfreshres : ∀ i, i < prs.length →
      (h2.update h.nextId
        { status := .resolved, value := some v, error := none,
          handlers := mkHandlers 0 (h.nextId + 1) prs }).states (h.nextId + 1 + i)
        = some {} := by
    intro i hi
    rw [update_states_ne _ _ _ _ (by omega)]
    exact hA2 i hi
  obtain ⟨hRlog, hRst⟩ := runList_mkHandlers_res fuel prs
    (h2.update h.nextId
      { status := .resolved, value := some v, error := none,
        handlers := mkHandlers 0 (h.nextId + 1) prs }) 0 (h.nextId + 1) v hfreshres
  have hRp := hRst h.nextId (by omega)
  -- reject path
  have hreject :
      rejectP ((fuel + 1) + 1) h2 h.nextId e =
        (true,
         clearHandlers
           (runListRejF (settleJ (fuel + 1))
             (h2.update h.nextId
               { status := .rejected, value := none, error := some e,
                 handlers := mkHandlers 0 (h.nextId + 1) prs })
             (mkHandlers 0 (h.nextId + 1) prs) e) h.nextId) :=
    rejectP_pending (fuel + 1) h2 h.nextId e _ hA1s rfl
  have hfreshrej : ∀ i, i < prs.length →
      (h2.update h.nextId
        { status := .rejected, value := none, error := some e,
          handlers := mkHandlers 0 (h.nextId + 1) prs }).states (h.nextId + 1 + i)
        = some {} := by
    intro i hi
    rw [update_states_ne _ _ _ _ (by omega)]
    exact hA2 i hi
  obtain ⟨hJlog, hJst⟩ := runList_mkHandlers_rej fuel prs
    (h2.update h.nextId
      { status := .rejected, value := none, error := some e,
        handlers := mkHandlers 0 (h.nextId + 1) prs }) 0 (h.nextId + 1) e hfreshrej
  have hJp := hJst h.nextId (by omega)
  have hres1 : ((resolveP (fuel + 2) h2 h.nextId v).2).log
      = h.log ++ resLogOf 0 v prs := by
    rw [show fuel + 2 = (fuel + 1) + 1 from rfl, hresolve]
    simp only [clearHandlers_log]
    rw [hRlog, update_log, hA3]
  have hres2 : ((resolveP (fuel + 2) h2 h.nextId v).2).states h.nextId
      = some { status := .resolved, value := some v, error := none,
               handlers := [] } := by
    rw [show fuel + 2 = (fuel + 1) + 1 from rfl, hresolve]
    have hm : (runListResF (settleR (fuel + 1)) (settleJ (fuel + 1))
        (h2.update h.nextId
          { status := .resolved, value := some v, error := none,
            handlers := mkHandlers 0 (h.nextId + 1) prs })
        (mkHandlers 0 (h.nextId + 1) prs) v).states h.nextId
        = some { status := .resolved, value := some v, error := none,
                 handlers := mkHandlers 0 (h.nextId + 1) prs } := by
      rw [hRp, update_states_self]
    rw [clearHandlers_of_states _ _ _ hm, update_states_self]
  have hrej1 : ((rejectP (fuel + 2) h2 h.nextId e).2).log
      = h.log ++ rejLogOf 0 e prs := by
    rw [show fuel + 2 = (fuel + 1) + 1 from rfl, hreject]
    simp only [clearHandlers_log]
    rw [hJlog, update_log, hA3]
  have hrej2 : ((rejectP (fuel + 2) h2 h.nextId e).2).states h.nextId
      = some { status := .rejected, value := none, error := some e,
               handlers := [] } := by
    rw [show fuel + 2 = (fuel + 1) + 1 from rfl, hreject]
    have hm : (runListRejF (settleJ (fuel + 1))
        (h2.update h.nextId
          { status := .rejected, value := none, error := some e,
            handlers := mkHandlers 0 (h.nextId + 1) prs })
        (mkHandlers 0 (h.nextId + 1) prs) e).states h.nextId
        = some { status := .rejected, value := none, error := some e,
                 handlers := mkHandlers 0 (h.nextId + 1) prs } := by
      rw [hJp, update_states_self]
    rw [clearHandlers_of_states _ _ _ hm, update_states_self]
  have hnidJ : ((rejectP (fuel + 2) h2 h.nextId e).2).nextId = h2.nextId :=
    (settle_nextId (fuel + 2)).2 h2 h.nextId e
  have hpneJ : h.nextId ≠ ((rejectP (fuel + 2) h2 h.nextId e).2).nextId := by
    rw [hnidJ, hA4]; omega
  obtain ⟨he1, he2, he3, he4, he5⟩ :=
    thenFG_on_rejected fuel ((rejectP (fuel + 2) h2 h.nextId e).2) h.nextId
      t f2 g2 _ e hrej2 rfl rfl hpneJ
  refine ⟨hres1, hres2, hrej1, hrej2, ?_, he3, he2⟩
  -- post-settlement attach on a resolved placeholder fires immediately
  have hnid : ((resolveP (fuel + 2) h2 h.nextId v).2).nextId = h2.nextId :=
    (settle_nextId (fuel + 2)).1 h2 h.nextId v
  have hpne : h.nextId ≠ ((resolveP (fuel + 2) h2 h.nextId v).2).nextId := by
    rw [hnid, hA4]; omega
  obtain ⟨hd1, hd2, hd3, hd4, hd5⟩ :=
    thenFG_on_resolved fuel ((resolveP (fuel + 2) h2 h.nextId v).2) h.nextId
      t f2 g2 _ v hres2 rfl rfl hpne
  exact hd3

/-- Any sequence of settlement requests leaves an already settled state
bitwise unchanged (iterated at-most-once rule). -/
theorem settleOps_preserves_settled (fuel : Nat) :
    ∀ (ops : List SOp) (h : Heap) (q : Nat) (st : PState),
    h.states q = some st → st.status ≠ .pending →
    (settleOps fuel h ops).states q = some st := by
  intro ops
  induction ops with
  | nil => intro h q st hq hs; exact hq
  | cons op rest ih =>
    intro h q st hq hs
    cases op with
    | sres p v =>
      rw [settleOps]
      exact ih _ _ _ (resolveP_preserves_settled fuel h p v q st hq hs) hs
    | srej p e =>
      rw [settleOps]
      exact ih _ _ _ (rejectP_preserves_settled fuel h p e q st hq hs) hs

/-- One iteration of the `make_any_promise` initiator loop on a blank pending
input `p`: the `anyRes` pair is queued on `p` with a fresh intermediate
`promise<void>` at `h.nextId`, the `failRej` pair queued on that intermediate
with a second fresh `promise<void>` at `h.nextId + 1`; nothing fires. -/
theorem attachAnyInput_pending (fuel : Nat) (h : Heap) (outp p : Nat)
    (hp : h.states p = some {}) (hplt : p < h.nextId) :
    (attachAnyInput fuel h outp p).states p
      = some { status := .pending, value := none, error := none,
               handlers := [Handler.anyRes outp h.nextId] }
    ∧ (attachAnyInput fuel h outp p).states h.nextId
      = some { status := .pending, value := none, error := none,
               handlers := [Handler.failRej outp (h.nextId + 1)] }
    ∧ (attachAnyInput fuel h outp p).states (h.nextId + 1) = some {}
    ∧ (∀ q, q ≠ p → q ≠ h.nextId → q ≠ h.nextId + 1 →
        (attachAnyInput fuel h outp p).states q = h.states q)
    ∧ (attachAnyInput fuel h outp p).nextId = h.nextId + 2
    ∧ (attachAnyInput fuel h outp p).log = h.log
    ∧ (attachAnyInput fuel h outp p).ctxs = h.ctxs := by
  have hpn : p ≠ h.nextId := Nat.ne_of_lt hplt
  have h1p : (freshP h).2.states p = some {} := by
    rw [freshP_states_ne _ _ hpn]; exact hp
  rw [attachAnyInput]
  rw [show attachPair fuel (freshP h).2 p (.anyRes outp (freshP h).1) =
      (freshP h).2.update p
        { status := .pending, value := none, error := none,
          handlers := [Handler.anyRes outp h.nextId] } by
    rw [attachPair]
    simp only [h1p, freshP_fst]
    rfl]
  set h2 := (freshP h).2.update p
    { status := .pending, value := none, error := none,
      handlers := [Handler.anyRes outp h.nextId] } with hh2
  have h2n : h2.nextId = h.nextId + 1 := by rw [hh2, update_nextId, freshP_nextId]
  have h2fr : (freshP h2).2.states h.nextId = some {} := by
    rw [freshP_states_ne _ _ (by rw [h2n]; omega), hh2,
        update_states_ne _ _ _ _ (Ne.symm hpn)]
    exact freshP_states_self h
  rw [show attachPair fuel (freshP h2).2 (freshP h).1 (.failRej outp (freshP h2).1) =
      (freshP h2).2.update h.nextId
        { status := .pending, value := none, error := none,
          handlers := [Handler.failRej outp (h.nextId + 1)] } by
    rw [attachPair]
    simp only [freshP_fst] at h2fr ⊢
    simp only [h2fr, freshP_fst, h2n]
    rfl]
  have hfr2n : (freshP h2).2.nextId = h.nextId + 2 := by
    rw [freshP_nextId, h2n]
  refine ⟨?_, ?_, ?_, ?_, ?_, ?_, ?_⟩
  · rw [update_states_ne _ _ _ _ hpn, freshP_states_ne _ _ (by rw [h2n]; omega),
        hh2, update_states_self]
  · rw [update_states_self]
  · rw [update_states_ne _ _ _ _ (by omega)]
    have h1 : (freshP h2).1 = h.nextId + 1 := by rw [freshP_fst, h2n]
    rw [show h.nextId + 1 = (freshP h2).1 from h1.symm]
    exact freshP_states_self h2
  · intro q hqp hqn hqn1
    rw [update_states_ne _ _ _ _ hqn,
        freshP_states_ne _ _ (by rw [h2n]; omega), hh2,
        update_states_ne _ _ _ _ hqp, freshP_states_ne _ _ hqn]
  · rw [update_nextId, hfr2n]
  · rfl
  · rfl

/-- The `make_any_promise` initiator loop over pairwise distinct blank pending
inputs: input at position `j` ends up with exactly its forwarding pair queued,
its intermediate promises live at `h.nextId + 2j` and `h.nextId + 2j + 1`, and
nothing else changes. -/
theorem anyFold_spec (fuel : Nat) :
    ∀ (ps : List Nat) (h : Heap) (outp : Nat),
    (∀ p ∈ ps, p < h.nextId ∧ h.states p = some {}) →
    ps.Nodup →
    (∀ j, (hj : j < ps.length) →
        (ps.foldl (fun acc p => attachAnyInput fuel acc outp p) h).states
            (ps.get ⟨j, hj⟩)
          = some { status := .pending, value := none, error := none,
                   handlers := [Handler.anyRes outp (h.nextId + 2 * j)] }
        ∧ (ps.foldl (fun acc p => attachAnyInput fuel acc outp p) h).states
            (h.nextId + 2 * j)
          = some { status := .pending, value := none, error := none,
                   handlers := [Handler.failRej outp (h.nextId + 2 * j + 1)] }
        ∧ (ps.foldl (fun acc p => attachAnyInput fuel acc outp p) h).states
            (h.nextId + 2 * j + 1) = some {})
    ∧ (∀ q, q < h.nextId → q ∉ ps →
        (ps.foldl (fun acc p => attachAnyInput fuel acc outp p) h).states q
          = h.states q)
    ∧ (ps.foldl (fun acc p => attachAnyInput fuel acc outp p) h).nextId
        = h.nextId + 2 * ps.length
    ∧ (ps.foldl (fun acc p => attachAnyInput fuel acc outp p) h).log = h.log
    ∧ (ps.foldl (fun acc p => attachAnyInput fuel acc outp p) h).ctxs = h.ctxs := by
  intro ps
  induction ps with
  | nil =>
    intro h outp hpre hnd
    refine ⟨?_, ?_, by simp, rfl, rfl⟩
    · intro j hj; exact absurd hj (by simp)
    · intro q hq hqm; rfl
  | cons p rest ih =>
    intro h outp hpre hnd
    obtain ⟨hplt, hp⟩ := hpre p (List.mem_cons_self p rest)
    obtain ⟨hA1, hA2, hA3, hA4, hA5, hA6, hA7⟩ :=
      attachAnyInput_pending fuel h outp p hp hplt
    rw [List.foldl_cons]
    set h1 := attachAnyInput fuel h outp p with hh1
    have hpnotrest : p ∉ rest := (List.nodup_cons.mp hnd).1
    have hrestlt : ∀ p2 ∈ rest, p2 < h.nextId := fun p2 hm =>
      (hpre p2 (List.mem_cons_of_mem p hm)).1
    have hpre1 : ∀ p2 ∈ rest, p2 < h1.nextId ∧ h1.states p2 = some {} := by
      intro p2 hm
      have hlt := hrestlt p2 hm
      have hne : p2 ≠ p := fun heq =>
        hpnotrest (heq ▸ hm)
      constructor
      · rw [hA5]; omega
      · rw [hA4 p2 hne (by omega) (by omega)]
        exact (hpre p2 (List.mem_cons_of_mem p hm)).2
    obtain ⟨ih1, ih2, ih3, ih4, ih5⟩ := ih h1 outp hpre1 (List.nodup_cons.mp hnd).2
    rw [hA5] at ih1 ih2 ih3
    have hnidnotrest : ∀ k, h.nextId ≤ k → k ∉ rest := by
      intro k hk hm
      have := hrestlt k hm
      omega
    refine ⟨?_, ?_, ?_, ?_, ?_⟩
    · intro j hj
      cases j with
      | zero =>
        simp only [Nat.mul_zero, Nat.add_zero]
        have hgz : (p :: rest).get ⟨0, hj⟩ = p := rfl
        rw [hgz]
        refine ⟨?_, ?_, ?_⟩
        · rw [ih2 p (by omega) hpnotrest, hA1]
        · rw [ih2 h.nextId (by omega) (hnidnotrest h.nextId (le_refl _)), hA2]
        · rw [ih2 (h.nextId + 1) (by omega) (hnidnotrest _ (by omega)), hA3]
      | succ j =>
        have hjr : j < rest.length := by
          have : j + 1 < rest.length + 1 := by
            simpa [List.length_cons] using hj
          omega
        have hgs : (p :: rest).get ⟨j + 1, hj⟩ = rest.get ⟨j, hjr⟩ := rfl
        obtain ⟨ihj1, ihj2, ihj3⟩ := ih1 j hjr
        rw [hgs]
        refine ⟨?_, ?_, ?_⟩
        · rw [show h.nextId + 2 * (j + 1) = h.nextId + 2 + 2 * j by omega]
          exact ihj1
        · rw [show h.nextId + 2 * (j + 1) = h.nextId + 2 + 2 * j by omega]
          exact ihj2
        · rw [show h.nextId + 2 * (j + 1) + 1 = h.nextId + 2 + 2 * j + 1 by omega]
          exact ihj3
    · intro q hq hqm
      have hqp : q ≠ p := fun heq => hqm (heq ▸ List.mem_cons_self p rest)
      have hqrest : q ∉ rest := fun hm => hqm (List.mem_cons_of_mem p hm)
      rw [ih2 q (by omega) hqrest, hA4 q hqp (by omega) (by omega)]
    · rw [ih3]
      have : (p :: rest).length = rest.length + 1 := rfl
      rw [this]; omega
    · rw [ih4, hA6]
    · rw [ih5, hA7]

/-- Resolving an input of `make_any` (queue = one `anyRes` pair) forwards the
value: the combinator output `outp` (still blank pending) resolves with the
same value, through the intermediate `promise<void>` chain. -/
theorem resolve_anyRes_chain (fuel : Nat) (h : Heap) (i outp n1 n2 : Nat)
    (v : PVal) (sti stn1 : PState)
    (hsti : h.states i = some sti) (hpi : sti.status = .pending)
    (hhi : sti.handlers = [Handler.anyRes outp n1])
    (hout : h.states outp = some {})
    (hstn1 : h.states n1 = some stn1) (hpn1 : stn1.status = .pending)
    (hhn1 : stn1.handlers = [Handler.failRej outp n2])
    (hn2 : h.states n2 = some {})
    (hio : i ≠ outp) (hin1 : i ≠ n1) (hin2 : i ≠ n2) (hon1 : outp ≠ n1)
    (hon2 : outp ≠ n2) (hn12 : n1 ≠ n2) :
    (resolveP (fuel + 3) h i v).1 = true
    ∧ ((resolveP (fuel + 3) h i v).2).states outp
        = some { status := .resolved, value := some v, error := none,
                 handlers := [] } := by
  rw [show fuel + 3 = (fuel + 2) + 1 from rfl,
      resolveP_pending (fuel + 2) h i v sti hsti hpi, hhi]
  refine ⟨rfl, ?_⟩
  rw [show runListResF (settleR (fuel + 2)) (settleJ (fuel + 2))
        (h.update i { status := PStatus.resolved, value := some v, error := sti.error, handlers := [Handler.anyRes outp n1] })
        [Handler.anyRes outp n1] v =
      runHandlerResolveF (settleR (fuel + 2)) (settleJ (fuel + 2))
        (h.update i { status := PStatus.resolved, value := some v, error := sti.error, handlers := [Handler.anyRes outp n1] })
        (Handler.anyRes outp n1) v from rfl]
  rw [runHandlerResolveF]
  have houh1 : (h.update i { status := PStatus.resolved, value := some v, error := sti.error, handlers := [Handler.anyRes outp n1] }).states outp
      = some {} := by
    rw [update_states_ne _ _ _ _ (Ne.symm hio)]; exact hout
  rw [show settleR (fuel + 2)
        (h.update i { status := PStatus.resolved, value := some v, error := sti.error, handlers := [Handler.anyRes outp n1] }) outp v =
      resolveP (fuel + 2)
        (h.update i { status := PStatus.resolved, value := some v, error := sti.error, handlers := [Handler.anyRes outp n1] }) outp v
      from rfl]
  rw [resolveP_pending_nohandlers (fuel + 1) _ outp v {} houh1 rfl rfl]
  set h2 := (h.update i { status := PStatus.resolved, value := some v, error := sti.error, handlers := [Handler.anyRes outp n1] }).update outp { status := PStatus.resolved, value := some v, error := none, handlers := [] } with hh2
  have hn1h2 : h2.states n1 = some stn1 := by
    rw [hh2, update_states_ne _ _ _ _ (Ne.symm hon1),
        update_states_ne _ _ _ _ (Ne.symm hin1)]
    exact hstn1
  rw [show settleR (fuel + 2) h2 n1 PVal.unit =
      resolveP (fuel + 2) h2 n1 PVal.unit from rfl]
  rw [show fuel + 2 = (fuel + 1) + 1 from rfl,
      resolveP_pending (fuel + 1) h2 n1 PVal.unit stn1 hn1h2 hpn1, hhn1]
  rw [show runListResF (settleR (fuel + 1)) (settleJ (fuel + 1))
        (h2.update n1 { status := PStatus.resolved, value := some PVal.unit, error := stn1.error, handlers := [Handler.failRej outp n2] })
        [Handler.failRej outp n2] PVal.unit =
      runHandlerResolveF (settleR (fuel + 1)) (settleJ (fuel + 1))
        (h2.update n1 { status := PStatus.resolved, value := some PVal.unit, error := stn1.error, handlers := [Handler.failRej outp n2] })
        (Handler.failRej outp n2) PVal.unit from rfl]
  rw [runHandlerResolveF]
  have hn2h : (h2.update n1 { status := PStatus.resolved, value := some PVal.unit, error := stn1.error, handlers := [Handler.failRej outp n2] }).states n2 = some {} := by
    rw [update_states_ne _ _ _ _ (Ne.symm hn12), hh2,
        update_states_ne _ _ _ _ (Ne.symm hon2),
        update_states_ne _ _ _ _ (Ne.symm hin2)]
    exact hn2
  rw [show settleR (fuel + 1)
        (h2.update n1 { status := PStatus.resolved, value := some PVal.unit, error := stn1.error, handlers := [Handler.failRej outp n2] }) n2
        PVal.unit =
      resolveP (fuel + 1)
        (h2.update n1 { status := PStatus.resolved, value := some PVal.unit, error := stn1.error, handlers := [Handler.failRej outp n2] }) n2
        PVal.unit from rfl]
  rw [resolveP_pending_nohandlers fuel _ n2 PVal.unit {} hn2h rfl rfl]
  have houfin : (clearHandlers
      (((h2.update n1 { status := PStatus.resolved, value := some PVal.unit, error := stn1.error, handlers := [Handler.failRej outp n2] }).update n2 { status := PStatus.resolved, value := some PVal.unit, error := none, handlers := [] })) n1).states outp
      = some { status := .resolved, value := some v, error := none,
               handlers := [] } := by
    rw [clearHandlers_states_ne _ _ _ hon1,
        update_states_ne _ _ _ _ hon2,
        update_states_ne _ _ _ _ hon1, hh2, update_states_self]
  rw [clearHandlers_states_ne _ _ _ (Ne.symm hio)]
  exact houfin

/-- Rejecting an input of `make_any` (queue = one `anyRes` pair) forwards the
error: the combinator output `outp` (still blank pending) is rejected with the
same error, through the intermediate `promise<void>` chain. -/
theorem reject_anyRes_chain (fuel : Nat) (h : Heap) (i outp n1 n2 : Nat)
    (e : Nat) (sti stn1 : PState)
    (hsti : h.states i = some sti) (hpi : sti.status = .pending)
    (hhi : sti.handlers = [Handler.anyRes outp n1])
    (hout : h.states outp = some {})
    (hstn1 : h.states n1 = some stn1) (hpn1 : stn1.status = .pending)
    (hhn1 : stn1.handlers = [Handler.failRej outp n2])
    (hn2 : h.states n2 = some {})
    (hio : i ≠ outp) (hin1 : i ≠ n1) (hin2 : i ≠ n2) (hon1 : outp ≠ n1)
    (hon2 : outp ≠ n2) (hn12 : n1 ≠ n2) :
    (rejectP (fuel + 3) h i e).1 = true
    ∧ ((rejectP (fuel + 3) h i e).2).states outp
        = some { status := .rejected, value := none, error := some e,
                 handlers := [] } := by
  rw [show fuel + 3 = (fuel + 2) + 1 from rfl,
      rejectP_pending (fuel + 2) h i e sti hsti hpi, hhi]
  refine ⟨rfl, ?_⟩
  rw [show runListRejF (settleJ (fuel + 2))
        (h.update i { status := PStatus.rejected, value := sti.value, error := some e, handlers := [Handler.anyRes outp n1] })
        [Handler.anyRes outp n1] e =
      runHandlerRejectF (settleJ (fuel + 2))
        (h.update i { status := PStatus.rejected, value := sti.value, error := some e, handlers := [Handler.anyRes outp n1] })
        (Handler.anyRes outp n1) e from rfl]
  rw [runHandlerRejectF]
  set h1 := h.update i { status := PStatus.rejected, value := sti.value, error := some e, handlers := [Handler.anyRes outp n1] } with hh1
  have hn1h1 : h1.states n1 = some stn1 := by
    rw [hh1, update_states_ne _ _ _ _ (Ne.symm hin1)]
    exact hstn1
  rw [show settleJ (fuel + 2) h1 n1 e = rejectP (fuel + 2) h1 n1 e from rfl]
  rw [show fuel + 2 = (fuel + 1) + 1 from rfl,
      rejectP_pending (fuel + 1) h1 n1 e stn1 hn1h1 hpn1, hhn1]
  rw [show runListRejF (settleJ (fuel + 1))
        (h1.update n1 { status := PStatus.rejected, value := stn1.value, error := some e, handlers := [Handler.failRej outp n2] })
        [Handler.failRej outp n2] e =
      runHandlerRejectF (settleJ (fuel + 1))
        (h1.update n1 { status := PStatus.rejected, value := stn1.value, error := some e, handlers := [Handler.failRej outp n2] })
        (Handler.failRej outp n2) e from rfl]
  rw [runHandlerRejectF]
  set h2 := h1.update n1 { status := PStatus.rejected, value := stn1.value, error := some e, handlers := [Handler.failRej outp n2] } with hh2
  have houh2 : h2.states outp = some {} := by
    rw [hh2, update_states_ne _ _ _ _ hon1, hh1,
        update_states_ne _ _ _ _ (Ne.symm hio)]
    exact hout
  rw [show settleJ (fuel + 1) h2 outp e = rejectP (fuel + 1) h2 outp e from rfl]
  rw [rejectP_pending_nohandlers fuel _ outp e {} houh2 rfl rfl]
  set h3 := h2.update outp { status := PStatus.rejected, value := none, error := some e, handlers := [] } with hh3
  have hn2h3 : h3.states n2 = some {} := by
    rw [hh3, update_states_ne _ _ _ _ (Ne.symm hon2), hh2,
        update_states_ne _ _ _ _ (Ne.symm hn12), hh1,
        update_states_ne _ _ _ _ (Ne.symm hin2)]
    exact hn2
  rw [show settleJ (fuel + 1) h3 n2 e = rejectP (fuel + 1) h3 n2 e from rfl]
  rw [rejectP_pending_nohandlers fuel _ n2 e {} hn2h3 rfl rfl]
  have hc1 : (h3.update n2 { status := PStatus.rejected, value := none, error := some e, handlers := [] }).states n1
      = some { status := PStatus.rejected, value := stn1.value, error := some e, handlers := [Handler.failRej outp n2] } := by
    rw [update_states_ne _ _ _ _ hn12, hh3,
        update_states_ne _ _ _ _ (Ne.symm hon1), hh2, update_states_self]
  rw [clearHandlers_states_ne _ _ _ (Ne.symm hio),
      clearHandlers_of_states _ _ _ hc1,
      update_states_ne _ _ _ _ hon1,
      update_states_ne _ _ _ _ hon2, hh3, update_states_self]

@[simp] theorem blankHeap_nextId (n : Nat) : (blankHeap n).nextId = n := rfl

theorem blankHeap_states_lt (n q : Nat) (hq : q < n) :
    (blankHeap n).states q = some {} := by
  simp [blankHeap, hq]

/-- The canonical `make_any` scenario: `make_any_promise` on `n ≥ 1` blank
pending inputs `0..n-1` returns the output promise `n` with the scenario heap,
in which input `i` holds its forwarding pair toward the intermediates
`n + 1 + 2i` and `n + 2 + 2i`, and the output is blank pending. -/
theorem anyScenario_spec (fuel n : Nat) (hn : 0 < n) :
    make_any_promise fuel (blankHeap n) (List.range n)
      = Except.ok (n, anyScenario fuel n)
    ∧ (∀ i, i < n →
        (anyScenario fuel n).states i
          = some { status := .pending, value := none, error := none,
                   handlers := [Handler.anyRes n (n + 1 + 2 * i)] }
        ∧ (anyScenario fuel n).states (n + 1 + 2 * i)
          = some { status := .pending, value := none, error := none,
                   handlers := [Handler.failRej n (n + 1 + 2 * i + 1)] }
        ∧ (anyScenario fuel n).states (n + 1 + 2 * i + 1) = some {})
    ∧ (anyScenario fuel n).states n = some {} := by
  have hnil : List.range n ≠ [] := by
    intro hcon
    have := List.range_eq_nil.mp hcon
    omega
  have hsc : anyScenario fuel n
      = (List.range n).foldl (fun acc p => attachAnyInput fuel acc n p)
          (freshP (blankHeap n)).2
      ∧ make_any_promise fuel (blankHeap n) (List.range n)
        = Except.ok (n, anyScenario fuel n) := by
    cases hrg : List.range n with
    | nil => exact absurd hrg hnil
    | cons a as =>
      have hdef : make_any_promise fuel (blankHeap n) (a :: as)
          = Except.ok (n,
              (a :: as).foldl (fun acc p => attachAnyInput fuel acc n p)
                (freshP (blankHeap n)).2) := rfl
      constructor
      · rw [anyScenario, hrg, hdef]
      · rw [hdef, anyScenario, hrg, hdef]
  have hnid : (freshP (blankHeap n)).2.nextId = n + 1 := by
    rw [freshP_nextId, blankHeap_nextId]
  have hpre : ∀ p ∈ List.range n,
      p < (freshP (blankHeap n)).2.nextId
      ∧ (freshP (blankHeap n)).2.states p = some {} := by
    intro p hm
    have hplt := List.mem_range.mp hm
    constructor
    · rw [hnid]; omega
    · rw [freshP_states_ne _ _ (by rw [blankHeap_nextId]; omega)]
      exact blankHeap_states_lt n p hplt
  obtain ⟨hF1, hF2, hF3, hF4, hF5⟩ :=
    anyFold_spec fuel (List.range n) (freshP (blankHeap n)).2 n hpre
      (List.nodup_range n)
  rw [hnid] at hF1 hF2
  refine ⟨hsc.2, ?_, ?_⟩
  · intro i hi
    have hil : i < (List.range n).length := by
      rw [List.length_range]; exact hi
    obtain ⟨hj1, hj2, hj3⟩ := hF1 i hil
    rw [List.get_range] at hj1
    rw [hsc.1]
    exact ⟨hj1, hj2, hj3⟩
  · rw [hsc.1]
    rw [hF2 n (by omega) (by simp [List.mem_range])]
    rw [show n = (blankHeap n).nextId from rfl]
    exact freshP_states_self (blankHeap n)

/-- C7: `make_any_promise` on an empty collection fails synchronously at call
time with the `std::logic_error` (a usage fault returned to the caller, not a
rejected placeholder).  On a non-empty collection of fresh pending inputs, the
output promise `n` settles with the exact outcome of whichever input settles
first - resolving input `i` with `v` resolves the output with `v`, rejecting
it with `e` rejects the output with `e` - and every later settlement request
(any promise, value or error) leaves the output bitwise unchanged: first
settle wins. -/
theorem C7_make_any_first_settle_wins (fuel fuel2 n i : Nat) (h : Heap)
    (v : PVal) (e : Nat) (ops : List SOp) (hn : 0 < n) (hi : i < n) :
    make_any_promise fuel h []
      = Except.error
          ("at least one input promise must be provided for make_any_promise")
    ∧ make_any_promise (fuel + 3) (blankHeap n) (List.range n)
        = Except.ok (n, anyScenario (fuel + 3) n)
    ∧ ((resolveP (fuel + 3) (anyScenario (fuel + 3) n) i v).2).states n
        = some { status := .resolved, value := some v, error := none,
                 handlers := [] }
    ∧ ((rejectP (fuel + 3) (anyScenario (fuel + 3) n) i e).2).states n
        = some { status := .rejected, value := none, error := some e,
                 handlers := [] }
    ∧ (settleOps fuel2
          ((resolveP (fuel + 3) (anyScenario (fuel + 3) n) i v).2) ops).states n
        = some { status := .resolved, value := some v, error := none,
                 handlers := [] }
    ∧ (settleOps fuel2
          ((rejectP (fuel + 3) (anyScenario (fuel + 3) n) i e).2) ops).states n
        = some { status := .rejected, value := none, error := some e,
                 handlers := [] } := by
  obtain ⟨hmk, hinp, hout⟩ := anyScenario_spec (fuel + 3) n hn
  obtain ⟨hi1, hi2, hi3⟩ := hinp i hi
  obtain ⟨hres1, hres2⟩ := resolve_anyRes_chain fuel (anyScenario (fuel + 3) n)
    i n (n + 1 + 2 * i) (n + 1 + 2 * i + 1) v _ _ hi1 rfl rfl hout hi2 rfl rfl
    hi3 (by omega) (by omega) (by omega) (by omega) (by omega) (by omega)
  obtain ⟨hrej1, hrej2⟩ := reject_anyRes_chain fuel (anyScenario (fuel + 3) n)
    i n (n + 1 + 2 * i) (n + 1 + 2 * i + 1) e _ _ hi1 rfl rfl hout hi2 rfl rfl
    hi3 (by omega) (by omega) (by omega) (by omega) (by omega) (by omega)
  refine ⟨rfl, hmk, hres2, hrej2, ?_, ?_⟩
  · exact settleOps_preserves_settled fuel2 ops _ n _ hres2 (by simp)
  · exact settleOps_preserves_settled fuel2 ops _ n _ hrej2 (by simp)

/-- Witness for C7 at concrete inputs: two inputs, input 1 resolves first with
`nat 7`, the output (promise 2) resolves with `nat 7`, and a later resolve of
input 0 changes nothing. -/
theorem C7_make_any_first_settle_wins_witness :
    ((resolveP 3 (anyScenario 3 2) 1 (.nat 7)).2).states 2
      = some { status := .resolved, value := some (.nat 7), error := none,
               handlers := [] }
    ∧ (settleOps 9 ((resolveP 3 (anyScenario 3 2) 1 (.nat 7)).2)
        [SOp.sres 0 (.nat 9)]).states 2
      = some { status := .resolved, value := some (.nat 7), error := none,
               handlers := [] } := by
  have hmain := C7_make_any_first_settle_wins 0 9 2 1 emptyHeap (.nat 7) 5
    [SOp.sres 0 (.nat 9)] (by decide) (by decide)
  exact ⟨hmain.2.2.1, hmain.2.2.2.2.1⟩

/-- One iteration of the `make_all_promise` initiator loop on a blank pending
input `p` at position `i`: the `allA` pair is queued on `p` with a fresh
intermediate `promise<void>` at `h.nextId`, the `failRej` pair queued on it
with a second fresh `promise<void>` at `h.nextId + 1`; nothing fires and the
contexts are untouched. -/
theorem attachAllInput_pending (fuel : Nat) (h : Heap) (c outp i p : Nat)
    (hp : h.states p = some {}) (hplt : p < h.nextId) :
    (attachAllInput fuel h c outp i p).states p
      = some { status := .pending, value := none, error := none,
               handlers := [Handler.allA c i outp h.nextId] }
    ∧ (attachAllInput fuel h c outp i p).states h.nextId
      = some { status := .pending, value := none, error := none,
               handlers := [Handler.failRej outp (h.nextId + 1)] }
    ∧ (attachAllInput fuel h c outp i p).states (h.nextId + 1) = some {}
    ∧ (∀ q, q ≠ p → q ≠ h.nextId → q ≠ h.nextId + 1 →
        (attachAllInput fuel h c outp i p).states q = h.states q)
    ∧ (attachAllInput fuel h c outp i p).nextId = h.nextId + 2
    ∧ (attachAllInput fuel h c outp i p).log = h.log
    ∧ (attachAllInput fuel h c outp i p).ctxs = h.ctxs := by
  have hpn : p ≠ h.nextId := Nat.ne_of_lt hplt
  have h1p : (freshP h).2.states p = some {} := by
    rw [freshP_states_ne _ _ hpn]; exact hp
  rw [attachAllInput]
  rw [show attachPair fuel (freshP h).2 p (.allA c i outp (freshP h).1) =
      (freshP h).2.update p
        { status := .pending, value := none, error := none,
          handlers := [Handler.allA c i outp h.nextId] } by
    rw [attachPair]
    simp only [h1p, freshP_fst]
    rfl]
  set h2 := (freshP h).2.update p
    { status := .pending, value := none, error := none,
      handlers := [Handler.allA c i outp h.nextId] } with hh2
  have h2n : h2.nextId = h.nextId + 1 := by rw [hh2, update_nextId, freshP_nextId]
  have h2fr : (freshP h2).2.states h.nextId = some {} := by
    rw [freshP_states_ne _ _ (by rw [h2n]; omega), hh2,
        update_states_ne _ _ _ _ (Ne.symm hpn)]
    exact freshP_states_self h
  rw [show attachPair fuel (freshP h2).2 (freshP h).1 (.failRej outp (freshP h2).1) =
      (freshP h2).2.update h.nextId
        { status := .pending, value := none, error := none,
          handlers := [Handler.failRej outp (h.nextId + 1)] } by
    rw [attachPair]
    simp only [freshP_fst] at h2fr ⊢
    simp only [h2fr, freshP_fst, h2n]
    rfl]
  have hfr2n : (freshP h2).2.nextId = h.nextId + 2 := by
    rw [freshP_nextId, h2n]
  refine ⟨?_, ?_, ?_, ?_, ?_, ?_, ?_⟩
  · rw [update_states_ne _ _ _ _ hpn, freshP_states_ne _ _ (by rw [h2n]; omega),
        hh2, update_states_self]
  · rw [update_states_self]
  · rw [update_states_ne _ _ _ _ (by omega)]
    have h1 : (freshP h2).1 = h.nextId + 1 := by rw [freshP_fst, h2n]
    rw [show h.nextId + 1 = (freshP h2).1 from h1.symm]
    exact freshP_states_self h2
  · intro q hqp hqn hqn1
    rw [update_states_ne _ _ _ _ hqn,
        freshP_states_ne _ _ (by rw [h2n]; omega), hh2,
        update_states_ne _ _ _ _ hqp, freshP_states_ne _ _ hqn]
  · rw [update_nextId, hfr2n]
  · rfl
  · rfl

/-- The `make_all_promise` initiator loop over pairwise distinct blank pending
inputs (given as pairs of input id and input position): the input at loop
position `j` ends up with exactly its buffer-writing pair queued, its
intermediate promises live at `h.nextId + 2j` and `h.nextId + 2j + 1`, and
nothing else (in particular no context) changes. -/
theorem allFold_spec (fuel : Nat) :
    ∀ (pis : List (Nat × Nat)) (h : Heap) (c outp : Nat),
    (∀ pi ∈ pis, pi.1 < h.nextId ∧ h.states pi.1 = some {}) →
    (pis.map Prod.fst).Nodup →
    (∀ j, (hj : j < pis.length) →
        (pis.foldl (fun acc pi => attachAllInput fuel acc c outp pi.2 pi.1) h).states
            (pis.get ⟨j, hj⟩).1
          = some { status := .pending, value := none, error := none,
                   handlers := [Handler.allA c (pis.get ⟨j, hj⟩).2 outp
                     (h.nextId + 2 * j)] }
        ∧ (pis.foldl (fun acc pi => attachAllInput fuel acc c outp pi.2 pi.1) h).states
            (h.nextId + 2 * j)
          = some { status := .pending, value := none, error := none,
                   handlers := [Handler.failRej outp (h.nextId + 2 * j + 1)] }
        ∧ (pis.foldl (fun acc pi => attachAllInput fuel acc c outp pi.2 pi.1) h).states
            (h.nextId + 2 * j + 1) = some {})
    ∧ (∀ q, q < h.nextId → q ∉ pis.map Prod.fst →
        (pis.foldl (fun acc pi => attachAllInput fuel acc c outp pi.2 pi.1) h).states q
          = h.states q)
    ∧ (pis.foldl (fun acc pi => attachAllInput fuel acc c outp pi.2 pi.1) h).nextId
        = h.nextId + 2 * pis.length
    ∧ (pis.foldl (fun acc pi => attachAllInput fuel acc c outp pi.2 pi.1) h).log
        = h.log
    ∧ (pis.foldl (fun acc pi => attachAllInput fuel acc c outp pi.2 pi.1) h).ctxs
        = h.ctxs := by
  intro pis
  induction pis with
  | nil =>
    intro h c outp hpre hnd
    refine ⟨?_, ?_, by simp, rfl, rfl⟩
    · intro j hj; exact absurd hj (by simp)
    · intro q hq hqm; rfl
  | cons pi rest ih =>
    intro h c outp hpre hnd
    obtain ⟨hplt, hp⟩ := hpre pi (List.mem_cons_self pi rest)
    obtain ⟨hA1, hA2, hA3, hA4, hA5, hA6, hA7⟩ :=
      attachAllInput_pending fuel h c outp pi.2 pi.1 hp hplt
    rw [List.foldl_cons]
    set h1 := attachAllInput fuel h c outp pi.2 pi.1 with hh1
    have hmapcons : (pi :: rest).map Prod.fst = pi.1 :: rest.map Prod.fst := rfl
    rw [hmapcons] at hnd
    have hndc := List.nodup_cons.mp hnd
    have hpnotrest : pi.1 ∉ rest.map Prod.fst := hndc.1
    have hrestlt : ∀ pi2 ∈ rest, pi2.1 < h.nextId := fun pi2 hm =>
      (hpre pi2 (List.mem_cons_of_mem pi hm)).1
    have hpre1 : ∀ pi2 ∈ rest, pi2.1 < h1.nextId ∧ h1.states pi2.1 = some {} := by
      intro pi2 hm
      have hlt := hrestlt pi2 hm
      have hne : pi2.1 ≠ pi.1 := by
        intro heq
        exact hpnotrest (heq ▸ List.mem_map_of_mem Prod.fst hm)
      constructor
      · rw [hA5]; omega
      · rw [hA4 pi2.1 hne (by omega) (by omega)]
        exact (hpre pi2 (List.mem_cons_of_mem pi hm)).2
    obtain ⟨ih1, ih2, ih3, ih4, ih5⟩ := ih h1 c outp hpre1 hndc.2
    rw [hA5] at ih1 ih2 ih3
    have hnidnotrest : ∀ k, h.nextId ≤ k → k ∉ rest.map Prod.fst := by
      intro k hk hm
      obtain ⟨pi2, hmem, heq⟩ := List.mem_map.mp hm
      have := hrestlt pi2 hmem
      omega
    refine ⟨?_, ?_, ?_, ?_, ?_⟩
    · intro j hj
      cases j with
      | zero =>
        simp only [Nat.mul_zero, Nat.add_zero]
        have hgz : (pi :: rest).get ⟨0, hj⟩ = pi := rfl
        rw [hgz]
        refine ⟨?_, ?_, ?_⟩
        · rw [ih2 pi.1 (by omega) hpnotrest, hA1]
        · rw [ih2 h.nextId (by omega) (hnidnotrest h.nextId (le_refl _)), hA2]
        · rw [ih2 (h.nextId + 1) (by omega) (hnidnotrest _ (by omega)), hA3]
      | succ j =>
        have hjr : j < rest.length := by
          have : j + 1 < rest.length + 1 := by
            simpa [List.length_cons] using hj
          omega
        have hgs : (pi :: rest).get ⟨j + 1, hj⟩ = rest.get ⟨j, hjr⟩ := rfl
        obtain ⟨ihj1, ihj2, ihj3⟩ := ih1 j hjr
        rw [hgs]
        refine ⟨?_, ?_, ?_⟩
        · rw [show h.nextId + 2 * (j + 1) = h.nextId + 2 + 2 * j by omega]
          exact ihj1
        · rw [show h.nextId + 2 * (j + 1) = h.nextId + 2 + 2 * j by omega]
          exact ihj2
        · rw [show h.nextId + 2 * (j + 1) + 1 = h.nextId + 2 + 2 * j + 1 by omega]
          exact ihj3
    · intro q hq hqm
      have hqp : q ≠ pi.1 := by
        intro heq
        exact hqm (heq ▸ List.mem_map_of_mem Prod.fst (List.mem_cons_self pi rest))
      have hqrest : q ∉ rest.map Prod.fst := by
        intro hm
        obtain ⟨pi2, hmem, heq⟩ := List.mem_map.mp hm
        exact hqm (heq ▸ List.mem_map_of_mem Prod.fst (List.mem_cons_of_mem pi hmem))
      rw [ih2 q (by omega) hqrest, hA4 q hqp (by omega) (by omega)]
    · rw [ih3]
      have : (pi :: rest).length = rest.length + 1 := rfl
      rw [this]; omega
    · rw [ih4, hA6]
    · rw [ih5, hA7]

@[simp] theorem newCtx_fst (h : Heap) (n : Nat) : (newCtx h n).1 = h.nextCtx := rfl

@[simp] theorem newCtx_states (h : Heap) (n : Nat) :
    (newCtx h n).2.states = h.states := rfl

@[simp] theorem newCtx_nextId (h : Heap) (n : Nat) :
    (newCtx h n).2.nextId = h.nextId := rfl

@[simp] theorem newCtx_log (h : Heap) (n : Nat) : (newCtx h n).2.log = h.log := rfl

@[simp] theorem newCtx_ctxs_self (h : Heap) (n : Nat) :
    (newCtx h n).2.ctxs h.nextCtx
      = some { results := List.replicate n default, counter := 0 } := by
  simp [newCtx]

/-- The canonical `make_all` scenario for `n ≥ 1`: the output promise is `n`
and the heap satisfies the invariant with no input resolved yet (for every
value assignment, vacuously). -/
theorem allScenario_spec (fuel n : Nat) (v : Nat → PVal) (hn : 0 < n) :
    (allScenario fuel n).1 = n ∧ allInv n v [] (allScenario fuel n).2 := by
  have hnil : List.range n ≠ [] := by
    intro hcon
    have := List.range_eq_nil.mp hcon
    omega
  have hsc : allScenario fuel n
      = (n, ((List.range n).zip (List.range (List.range n).length)).foldl
          (fun acc pi => attachAllInput fuel acc 0 n pi.2 pi.1)
          (newCtx (freshP (blankHeap n)).2 (List.range n).length).2) := by
    cases hrg : List.range n with
    | nil => exact absurd hrg hnil
    | cons a as =>
      rw [allScenario, hrg]
      rfl
  set hbase := (newCtx (freshP (blankHeap n)).2 (List.range n).length).2 with hhb
  have hbn : hbase.nextId = n + 1 := by
    rw [hhb, newCtx_nextId, freshP_nextId, blankHeap_nextId]
  have hbst : ∀ p, p < n → hbase.states p = some {} := by
    intro p hp
    rw [hhb, newCtx_states,
        freshP_states_ne _ _ (by rw [blankHeap_nextId]; omega)]
    exact blankHeap_states_lt n p hp
  have hbout : hbase.states n = some {} := by
    rw [hhb, newCtx_states, show n = (blankHeap n).nextId from rfl]
    exact freshP_states_self (blankHeap n)
  have hbc : hbase.ctxs 0 = some { results := List.replicate n default, counter := 0 } := by
    rw [hhb, show (0 : Nat) = (freshP (blankHeap n)).2.nextCtx from rfl,
        newCtx_ctxs_self, List.length_range]
    rfl
  set pis := (List.range n).zip (List.range (List.range n).length) with hpis
  have hmapfst : pis.map Prod.fst = List.range n := by
    rw [hpis]
    exact List.map_fst_zip _ _ (by simp)
  have hpre : ∀ pi ∈ pis, pi.1 < hbase.nextId ∧ hbase.states pi.1 = some {} := by
    intro pi hm
    have h1 : pi.1 ∈ List.range n := by
      rw [← hmapfst]
      exact List.mem_map_of_mem Prod.fst hm
    have hlt := List.mem_range.mp h1
    exact ⟨by omega, hbst pi.1 hlt⟩
  have hnd : (pis.map Prod.fst).Nodup := by
    rw [hmapfst]; exact List.nodup_range n
  obtain ⟨hF1, hF2, hF3, hF4, hF5⟩ := allFold_spec fuel pis hbase 0 n hpre hnd
  rw [hbn] at hF1 hF2
  have hlenpis : pis.length = n := by
    rw [hpis]
    simp
  have hget : ∀ j, (hj : j < pis.length) → pis.get ⟨j, hj⟩ = (j, j) := by
    intro j hj
    rw [List.get_eq_getElem]
    simp only [hpis, List.getElem_zip, List.getElem_range]
  rw [hsc]
  refine ⟨rfl, ?_, ?_, ?_, ?_, ?_, ?_, ?_⟩
  · exact List.nodup_nil
  · intro i hm; exact absurd hm (List.not_mem_nil i)
  · intro i hi hnm
    have hil : i < pis.length := by rw [hlenpis]; exact hi
    obtain ⟨hj1, hj2, hj3⟩ := hF1 i hil
    rw [hget i hil] at hj1
    exact ⟨hj1, hj2, hj3⟩
  · intro i hm; exact absurd hm (List.not_mem_nil i)
  · rw [hF5, hbc]
    have hmap : (List.range n).map
        (fun j => if j ∈ ([] : List Nat) then v j else PVal.unit)
        = List.replicate n PVal.unit := by
      have h1 : (List.range n).map
          (fun j => if j ∈ ([] : List Nat) then v j else PVal.unit)
          = (List.range n).map (fun _ => PVal.unit) := by
        apply List.map_congr_left
        intro j hj
        simp
      rw [h1]
      simp [List.map_const']
    rw [hmap]
    rfl
  · intro hlt
    rw [hF2 n (by omega) (by rw [hmapfst]; simp [List.mem_range]), hbout]
  · intro heq
    simp only [List.length_nil] at heq
    exact absurd heq.symm (by omega)

/-- Resolving an intermediate `promise<void>` whose queue holds one `failRej`
pair: the no-op resolve side passes through, the downstream `promise<void>`
resolves, and nothing else (in particular not the combinator output) is
touched. -/
theorem resolve_failRej_chain (fuel : Nat) (h : Heap) (n1 outp n2 : Nat)
    (stn1 : PState) (hstn1 : h.states n1 = some stn1)
    (hpn1 : stn1.status = .pending)
    (hhn1 : stn1.handlers = [Handler.failRej outp n2])
    (hn2 : h.states n2 = some {}) (hn12 : n1 ≠ n2) :
    (resolveP (fuel + 2) h n1 PVal.unit).1 = true
    ∧ ((resolveP (fuel + 2) h n1 PVal.unit).2).states n1
        = some { stn1 with status := .resolved, value := some PVal.unit,
                           handlers := [] }
    ∧ ((resolveP (fuel + 2) h n1 PVal.unit).2).states n2
        = some { status := .resolved, value := some PVal.unit, error := none,
                 handlers := [] }
    ∧ (∀ q, q ≠ n1 → q ≠ n2 →
        ((resolveP (fuel + 2) h n1 PVal.unit).2).states q = h.states q)
    ∧ ((resolveP (fuel + 2) h n1 PVal.unit).2).ctxs = h.ctxs := by
  rw [show fuel + 2 = (fuel + 1) + 1 from rfl,
      resolveP_pending (fuel + 1) h n1 PVal.unit stn1 hstn1 hpn1, hhn1]
  set stn1r : PState := { status := PStatus.resolved, value := some PVal.unit, error := stn1.error, handlers := [Handler.failRej outp n2] } with hstn1r
  rw [show runListResF (settleR (fuel + 1)) (settleJ (fuel + 1))
        (h.update n1 stn1r) [Handler.failRej outp n2] PVal.unit =
      runHandlerResolveF (settleR (fuel + 1)) (settleJ (fuel + 1))
        (h.update n1 stn1r) (Handler.failRej outp n2) PVal.unit from rfl]
  rw [runHandlerResolveF]
  have hn2u : (h.update n1 stn1r).states n2 = some {} := by
    rw [update_states_ne _ _ _ _ (Ne.symm hn12)]; exact hn2
  rw [show settleR (fuel + 1) (h.update n1 stn1r) n2 PVal.unit =
      resolveP (fuel + 1) (h.update n1 stn1r) n2 PVal.unit from rfl]
  rw [resolveP_pending_nohandlers fuel _ n2 PVal.unit {} hn2u rfl rfl]
  have hcl : ((h.update n1 stn1r).update n2
      { status := PStatus.resolved, value := some PVal.unit, error := none,
        handlers := [] }).states n1 = some stn1r := by
    rw [update_states_ne _ _ _ _ hn12, update_states_self]
  rw [clearHandlers_of_states _ _ _ hcl]
  refine ⟨rfl, ?_, ?_, ?_, ?_⟩
  · rw [update_states_self]
  · rw [update_states_ne _ _ _ _ (Ne.symm hn12), update_states_self]
  · intro q hq1 hq2
    rw [update_states_ne _ _ _ _ hq1, update_states_ne _ _ _ _ hq2,
        update_states_ne _ _ _ _ hq1]
  · rfl

/-- Rejecting an intermediate `promise<void>` whose queue holds one `failRej`
pair: the rejector forwards the error to the (blank pending) combinator
output `outp`, then the downstream `promise<void>` is rejected with the same
error. -/
theorem reject_failRej_chain (fuel : Nat) (h : Heap) (n1 outp n2 : Nat)
    (e : Nat) (stn1 : PState) (hstn1 : h.states n1 = some stn1)
    (hpn1 : stn1.status = .pending)
    (hhn1 : stn1.handlers = [Handler.failRej outp n2])
    (hout : h.states outp = some {}) (hn2 : h.states n2 = some {})
    (hon1 : outp ≠ n1) (hon2 : outp ≠ n2) (hn12 : n1 ≠ n2) :
    (rejectP (fuel + 2) h n1 e).1 = true
    ∧ ((rejectP (fuel + 2) h n1 e).2).states n1
        = some { stn1 with status := .rejected, error := some e,
                           handlers := [] }
    ∧ ((rejectP (fuel + 2) h n1 e).2).states outp
        = some { status := .rejected, value := none, error := some e,
                 handlers := [] }
    ∧ ((rejectP (fuel + 2) h n1 e).2).states n2
        = some { status := .rejected, value := none, error := some e,
                 handlers := [] }
    ∧ (∀ q, q ≠ n1 → q ≠ n2 → q ≠ outp →
        ((rejectP (fuel + 2) h n1 e).2).states q = h.states q)
    ∧ ((rejectP (fuel + 2) h n1 e).2).ctxs = h.ctxs := by
  rw [show fuel + 2 = (fuel + 1) + 1 from rfl,
      rejectP_pending (fuel + 1) h n1 e stn1 hstn1 hpn1, hhn1]
  set stn1r : PState := { status := PStatus.rejected, value := stn1.value, error := some e, handlers := [Handler.failRej outp n2] } with hstn1r
  rw [show runListRejF (settleJ (fuel + 1))
        (h.update n1 stn1r) [Handler.failRej outp n2] e =
      runHandlerRejectF (settleJ (fuel + 1))
        (h.update n1 stn1r) (Handler.failRej outp n2) e from rfl]
  rw [runHandlerRejectF]
  have houtu : (h.update n1 stn1r).states outp = some {} := by
    rw [update_states_ne _ _ _ _ hon1]; exact hout
  rw [show settleJ (fuel + 1) (h.update n1 stn1r) outp e =
      rejectP (fuel + 1) (h.update n1 stn1r) outp e from rfl]
  rw [rejectP_pending_nohandlers fuel _ outp e {} houtu rfl rfl]
  set h2 := (h.update n1 stn1r).update outp { status := PStatus.rejected, value := none, error := some e, handlers := [] } with hh2
  have hn2u : h2.states n2 = some {} := by
    rw [hh2, update_states_ne _ _ _ _ (Ne.symm hon2),
        update_states_ne _ _ _ _ (Ne.symm hn12)]
    exact hn2
  rw [show settleJ (fuel + 1) h2 n2 e = rejectP (fuel + 1) h2 n2 e from rfl]
  rw [rejectP_pending_nohandlers fuel _ n2 e {} hn2u rfl rfl]
  have hcl : (h2.update n2
      { status := PStatus.rejected, value := none, error := some e,
        handlers := [] }).states n1 = some stn1r := by
    rw [update_states_ne _ _ _ _ hn12, hh2,
        update_states_ne _ _ _ _ (Ne.symm hon1), update_states_self]
  rw [clearHandlers_of_states _ _ _ hcl]
  refine ⟨rfl, ?_, ?_, ?_, ?_, ?_⟩
  · rw [update_states_self]
  · rw [update_states_ne _ _ _ _ hon1,
        update_states_ne _ _ _ _ hon2, hh2, update_states_self]
  · rw [update_states_ne _ _ _ _ (Ne.symm hn12), update_states_self]
  · intro q hq1 hq2 hq3
    rw [update_states_ne _ _ _ _ hq1, update_states_ne _ _ _ _ hq2, hh2,
        update_states_ne _ _ _ _ hq3, update_states_ne _ _ _ _ hq1]
  · rfl

/-- Resolving a `make_all` input (queue = one `allA` pair): `apply_result`
writes the value at the input position and bumps the counter; if the counter
reaches the buffer length the (blank pending) output resolves with the
completed buffer, otherwise the output is untouched; the intermediate
`promise<void>` chain resolves; nothing else changes. -/
theorem resolve_allA_chain (fuel : Nat) (h : Heap) (p c idx outp n1 n2 : Nat)
    (w : PVal) (sti stn1 : PState) (ctx : AllCtx)
    (hsti : h.states p = some sti) (hpi : sti.status = .pending)
    (hhi : sti.handlers = [Handler.allA c idx outp n1])
    (hctx : h.ctxs c = some ctx)
    (hstn1 : h.states n1 = some stn1) (hpn1 : stn1.status = .pending)
    (hhn1 : stn1.handlers = [Handler.failRej outp n2])
    (hn2 : h.states n2 = some {})
    (houtp : ctx.counter + 1 = (ctx.results.set idx w).length →
      h.states outp = some {})
    (hpo : p ≠ outp) (hpn1d : p ≠ n1) (hpn2 : p ≠ n2) (hon1 : outp ≠ n1)
    (hon2 : outp ≠ n2) (hn12 : n1 ≠ n2) :
    (resolveP (fuel + 3) h p w).1 = true
    ∧ ((resolveP (fuel + 3) h p w).2).states p
        = some { sti with status := .resolved, value := some w,
                          handlers := [] }
    ∧ ((resolveP (fuel + 3) h p w).2).states n1
        = some { stn1 with status := .resolved, value := some PVal.unit,
                           handlers := [] }
    ∧ ((resolveP (fuel + 3) h p w).2).states n2
        = some { status := .resolved, value := some PVal.unit, error := none,
                 handlers := [] }
    ∧ ((resolveP (fuel + 3) h p w).2).ctxs c
        = some { results := ctx.results.set idx w,
                 counter := ctx.counter + 1 }
    ∧ (ctx.counter + 1 = (ctx.results.set idx w).length →
        ((resolveP (fuel + 3) h p w).2).states outp
          = some { status := .resolved,
                   value := some (.list (ctx.results.set idx w)),
                   error := none, handlers := [] })
    ∧ (ctx.counter + 1 ≠ (ctx.results.set idx w).length →
        ((resolveP (fuel + 3) h p w).2).states outp = h.states outp)
    ∧ (∀ q, q ≠ p → q ≠ n1 → q ≠ n2 → q ≠ outp →
        ((resolveP (fuel + 3) h p w).2).states q = h.states q)
    ∧ (∀ d, d ≠ c → ((resolveP (fuel + 3) h p w).2).ctxs d = h.ctxs d) := by
  rw [show fuel + 3 = (fuel + 2) + 1 from rfl,
      resolveP_pending (fuel + 2) h p w sti hsti hpi, hhi]
  set sti1 : PState := { status := PStatus.resolved, value := some w, error := sti.error, handlers := [Handler.allA c idx outp n1] } with hsti1
  set h1 := h.update p sti1 with hh1
  rw [show runListResF (settleR (fuel + 2)) (settleJ (fuel + 2)) h1
        [Handler.allA c idx outp n1] w =
      runHandlerResolveF (settleR (fuel + 2)) (settleJ (fuel + 2)) h1
        (Handler.allA c idx outp n1) w from rfl]
  have hh1c : h1.ctxs c = some ctx := by
    rw [hh1, update_ctxs, hctx]
  set R := ctx.results.set idx w with hR
  set CC : AllCtx := { results := R, counter := ctx.counter + 1 } with hCC
  by_cases hcnt : ctx.counter + 1 = R.length
  · -- counter reaches the length: the output resolves with the buffer
    have hred : runHandlerResolveF (settleR (fuel + 2)) (settleJ (fuel + 2)) h1
        (Handler.allA c idx outp n1) w
        = (resolveP (fuel + 2)
            ((resolveP (fuel + 2) (h1.setCtx c CC) outp (PVal.list R)).2) n1
            PVal.unit).2 := by
      rw [runHandlerResolveF, hh1c]
      simp only [hCC]
      rw [if_pos hcnt]
    rw [hred]
    have houtX : (h1.setCtx c CC).states outp = some {} := by
      rw [setCtx_states, hh1, update_states_ne _ _ _ _ (Ne.symm hpo)]
      exact houtp hcnt
    have hA : resolveP (fuel + 2) (h1.setCtx c CC) outp (PVal.list R)
        = (true, (h1.setCtx c CC).update outp
            { status := .resolved, value := some (PVal.list R), error := none,
              handlers := [] }) := by
      rw [show fuel + 2 = (fuel + 1) + 1 from rfl]
      exact resolveP_pending_nohandlers (fuel + 1) _ outp (PVal.list R) {}
        houtX rfl rfl
    rw [hA]
    set X := (h1.setCtx c CC).update outp { status := PStatus.resolved, value := some (PVal.list R), error := none, handlers := [] } with hX
    have hXn1 : X.states n1 = some stn1 := by
      rw [hX, update_states_ne _ _ _ _ (Ne.symm hon1), setCtx_states, hh1,
          update_states_ne _ _ _ _ (Ne.symm hpn1d)]
      exact hstn1
    have hXn2 : X.states n2 = some {} := by
      rw [hX, update_states_ne _ _ _ _ (Ne.symm hon2), setCtx_states, hh1,
          update_states_ne _ _ _ _ (Ne.symm hpn2)]
      exact hn2
    obtain ⟨hf1, hf2, hf3, hf4, hf5⟩ :=
      resolve_failRej_chain fuel X n1 outp n2 stn1 hXn1 hpn1 hhn1 hXn2 hn12
    have hFp : ((resolveP (fuel + 2) X n1 PVal.unit).2).states p = some sti1 := by
      rw [hf4 p hpn1d hpn2, hX, update_states_ne _ _ _ _ hpo, setCtx_states,
          hh1, update_states_self]
    rw [clearHandlers_of_states _ _ _ hFp]
    refine ⟨rfl, ?_, ?_, ?_, ?_, ?_, ?_, ?_, ?_⟩
    · rw [update_states_self]
    · rw [update_states_ne _ _ _ _ (Ne.symm hpn1d), hf2]
    · rw [update_states_ne _ _ _ _ (Ne.symm hpn2), hf3]
    · rw [update_ctxs, hf5, hX, update_ctxs, setCtx_ctxs_self]
    · intro hc2
      rw [update_states_ne _ _ _ _ (Ne.symm hpo), hf4 outp hon1 hon2, hX,
          update_states_self]
    · intro hne; exact absurd hcnt hne
    · intro q hq1 hq2 hq3 hq4
      rw [update_states_ne _ _ _ _ hq1, hf4 q hq2 hq3, hX,
          update_states_ne _ _ _ _ hq4, setCtx_states, hh1,
          update_states_ne _ _ _ _ hq1]
    · intro d hd
      rw [update_ctxs, hf5, hX, update_ctxs, setCtx_ctxs_ne _ _ _ _ hd, hh1,
          update_ctxs]
  · -- counter below the length: the output is untouched
    have hred : runHandlerResolveF (settleR (fuel + 2)) (settleJ (fuel + 2)) h1
        (Handler.allA c idx outp n1) w
        = (resolveP (fuel + 2) (h1.setCtx c CC) n1 PVal.unit).2 := by
      rw [runHandlerResolveF, hh1c]
      simp only [hCC]
      rw [if_neg hcnt]
    rw [hred]
    set X := h1.setCtx c CC with hX
    have hXn1 : X.states n1 = some stn1 := by
      rw [hX, setCtx_states, hh1, update_states_ne _ _ _ _ (Ne.symm hpn1d)]
      exact hstn1
    have hXn2 : X.states n2 = some {} := by
      rw [hX, setCtx_states, hh1, update_states_ne _ _ _ _ (Ne.symm hpn2)]
      exact hn2
    obtain ⟨hf1, hf2, hf3, hf4, hf5⟩ :=
      resolve_failRej_chain fuel X n1 outp n2 stn1 hXn1 hpn1 hhn1 hXn2 hn12
    have hFp : ((resolveP (fuel + 2) X n1 PVal.unit).2).states p = some sti1 := by
      rw [hf4 p hpn1d hpn2, hX, setCtx_states, hh1, update_states_self]
    rw [clearHandlers_of_states _ _ _ hFp]
    refine ⟨rfl, ?_, ?_, ?_, ?_, ?_, ?_, ?_, ?_⟩
    · rw [update_states_self]
    · rw [update_states_ne _ _ _ _ (Ne.symm hpn1d), hf2]
    · rw [update_states_ne _ _ _ _ (Ne.symm hpn2), hf3]
    · rw [update_ctxs, hf5, hX, setCtx_ctxs_self]
    · intro hc2; exact absurd hc2 hcnt
    · intro hne
      rw [update_states_ne _ _ _ _ (Ne.symm hpo), hf4 outp hon1 hon2, hX,
          setCtx_states, hh1, update_states_ne _ _ _ _ (Ne.symm hpo)]
    · intro q hq1 hq2 hq3 hq4
      rw [update_states_ne _ _ _ _ hq1, hf4 q hq2 hq3, hX, setCtx_states, hh1,
          update_states_ne _ _ _ _ hq1]
    · intro d hd
      rw [update_ctxs, hf5, hX, setCtx_ctxs_ne _ _ _ _ hd, hh1, update_ctxs]

/-- Rejecting a `make_all` input (queue = one `allA` pair): the no-op observer
of the one-argument `then` passes the error to the intermediate
`promise<void>`, whose `fail` pair forwards it to the (blank pending) output:
the output is rejected with the input error; the shared context is
untouched. -/
theorem reject_allA_chain (fuel : Nat) (h : Heap) (p c idx outp n1 n2 : Nat)
    (e : Nat) (sti stn1 : PState)
    (hsti : h.states p = some sti) (hpi : sti.status = .pending)
    (hhi : sti.handlers = [Handler.allA c idx outp n1])
    (hstn1 : h.states n1 = some stn1) (hpn1 : stn1.status = .pending)
    (hhn1 : stn1.handlers = [Handler.failRej outp n2])
    (hout : h.states outp = some {}) (hn2 : h.states n2 = some {})
    (hpo : p ≠ outp) (hpn1d : p ≠ n1) (hpn2 : p ≠ n2) (hon1 : outp ≠ n1)
    (hon2 : outp ≠ n2) (hn12 : n1 ≠ n2) :
    (rejectP (fuel + 3) h p e).1 = true
    ∧ ((rejectP (fuel + 3) h p e).2).states outp
        = some { status := .rejected, value := none, error := some e,
                 handlers := [] } := by
  rw [show fuel + 3 = (fuel + 2) + 1 from rfl,
      rejectP_pending (fuel + 2) h p e sti hsti hpi, hhi]
  set sti1 : PState := { status := PStatus.rejected, value := sti.value, error := some e, handlers := [Handler.allA c idx outp n1] } with hsti1
  set h1 := h.update p sti1 with hh1
  rw [show runListRejF (settleJ (fuel + 2)) h1 [Handler.allA c idx outp n1] e =
      runHandlerRejectF (settleJ (fuel + 2)) h1
        (Handler.allA c idx outp n1) e from rfl]
  rw [show runHandlerRejectF (settleJ (fuel + 2)) h1
        (Handler.allA c idx outp n1) e =
      (rejectP (fuel + 2) h1 n1 e).2 by rw [runHandlerRejectF]]
  have hXn1 : h1.states n1 = some stn1 := by
    rw [hh1, update_states_ne _ _ _ _ (Ne.symm hpn1d)]
    exact hstn1
  have hXout : h1.states outp = some {} := by
    rw [hh1, update_states_ne _ _ _ _ (Ne.symm hpo)]
    exact hout
  have hXn2 : h1.states n2 = some {} := by
    rw [hh1, update_states_ne _ _ _ _ (Ne.symm hpn2)]
    exact hn2
  obtain ⟨hf1, hf2, hf3, hf4, hf5, hf6⟩ :=
    reject_failRej_chain fuel h1 n1 outp n2 e stn1 hXn1 hpn1 hhn1 hXout hXn2
      hon1 hon2 hn12
  have hFp : ((rejectP (fuel + 2) h1 n1 e).2).states p = some sti1 := by
    rw [hf5 p hpn1d hpn2 hpo, hh1, update_states_self]
  rw [clearHandlers_of_states _ _ _ hFp]
  refine ⟨rfl, ?_⟩
  rw [update_states_ne _ _ _ _ (Ne.symm hpo), hf3]

/-- A duplicate-free list of naturals below `n` has at most `n` elements. -/
theorem nodup_all_lt_length_le (n : Nat) (l : List Nat) (hnd : l.Nodup)
    (hlt : ∀ j ∈ l, j < n) : l.length ≤ n := by
  have hsub : l ⊆ List.range n := fun j hj => List.mem_range.mpr (hlt j hj)
  have := (List.subperm_of_subset hnd hsub).length_le
  simpa using this

/-- A duplicate-free list of `n` naturals below `n` contains every natural
below `n`. -/
theorem nodup_all_lt_complete (n : Nat) (l : List Nat) (hnd : l.Nodup)
    (hlt : ∀ j ∈ l, j < n) (hlen : l.length = n) : ∀ j, j < n → j ∈ l := by
  have hsub : l ⊆ List.range n := fun j hj => List.mem_range.mpr (hlt j hj)
  have hperm : l.Perm (List.range n) :=
    (List.subperm_of_subset hnd hsub).perm_of_length_le
      (by rw [List.length_range, hlen])
  intro j hj
  exact hperm.mem_iff.mpr (List.mem_range.mpr hj)

/-- Writing position `i` of a buffer built as a map over `0..n-1` is the same
buffer with the mapped function overridden at `i`. -/
theorem set_map_range (n i : Nat) (x : PVal) (f : Nat → PVal) (hi : i < n) :
    ((List.range n).map f).set i x
      = (List.range n).map (fun j => if j = i then x else f j) := by
  apply List.ext_getElem
  · simp
  · intro j h1 h2
    have hjn : j < n := by simpa using h2
    rw [List.getElem_set]
    by_cases hij : i = j
    · subst hij
      simp
    · rw [if_neg hij]
      have hji : ¬ j = i := fun hcon => hij hcon.symm
      simp [List.getElem_map, List.getElem_range, hjn, hji]

/-- One `apply_result` on the invariant buffer: writing `v i` at position `i`
extends the resolved set by `i`. -/
theorem step_buffer_eq (n i : Nat) (v : Nat → PVal) (done : List Nat)
    (hi : i < n) :
    (((List.range n).map (fun j => if j ∈ done then v j else PVal.unit)).set i
        (v i))
      = (List.range n).map
          (fun j => if j ∈ i :: done then v j else PVal.unit) := by
  rw [set_map_range n i (v i) _ hi]
  apply List.map_congr_left
  intro j hj
  by_cases hji : j = i
  · subst hji; simp
  · simp [hji, List.mem_cons]

/-- The invariant step: resolving a not-yet-resolved input `i` with `v i`
returns true and re-establishes the invariant with `i` added to the resolved
set (in particular, when `i` is the last input, the output resolves with the
buffer in input order). -/
theorem allInv_resolve_step (fuel n : Nat) (v : Nat → PVal) (done : List Nat)
    (h : Heap) (i : Nat) (hinv : allInv n v done h) (hi : i < n)
    (hnew : i ∉ done) :
    (resolveP (fuel + 3) h i (v i)).1 = true
    ∧ allInv n v (i :: done) ((resolveP (fuel + 3) h i (v i)).2) := by
  obtain ⟨hnd, hbound, hpend, hdone, hctx, houtp, houtr⟩ := hinv
  obtain ⟨hip, hin1, hin2⟩ := hpend i hi hnew
  have hndc : (i :: done).Nodup := List.nodup_cons.mpr ⟨hnew, hnd⟩
  have hbndc : ∀ j ∈ i :: done, j < n := by
    intro j hj
    rcases List.mem_cons.mp hj with h1 | h2
    · exact h1 ▸ hi
    · exact hbound j h2
  have hlen1 : (i :: done).length ≤ n := nodup_all_lt_length_le n _ hndc hbndc
  have hdlen : done.length < n := by
    have : (i :: done).length = done.length + 1 := rfl
    omega
  have hout := houtp hdlen
  have hsetlen :
      (((List.range n).map (fun j => if j ∈ done then v j else PVal.unit)).set i
        (v i)).length = n := by
    rw [List.length_set, List.length_map, List.length_range]
  obtain ⟨hc1, hc2, hc3, hc4, hc5, hc6, hc7, hc8, hc9⟩ :=
    resolve_allA_chain fuel h i 0 i n (n + 1 + 2 * i) (n + 1 + 2 * i + 1)
      (v i) _ _ _ hip rfl rfl hctx hin1 rfl rfl hin2 (fun _ => hout)
      (by omega) (by omega) (by omega) (by omega) (by omega) (by omega)
  refine ⟨hc1, hndc, hbndc, ?_, ?_, ?_, ?_, ?_⟩
  · -- still-pending inputs keep their queues
    intro j hj hjm
    have hji : j ≠ i := fun hcon => hjm (hcon ▸ List.mem_cons_self i done)
    have hjd : j ∉ done := fun hm => hjm (List.mem_cons_of_mem i hm)
    obtain ⟨hp1, hp2, hp3⟩ := hpend j hj hjd
    refine ⟨?_, ?_, ?_⟩
    · rw [hc8 j hji (by omega) (by omega) (by omega)]; exact hp1
    · rw [hc8 (n + 1 + 2 * j) (by omega) (by omega) (by omega) (by omega)]
      exact hp2
    · rw [hc8 (n + 1 + 2 * j + 1) (by omega) (by omega) (by omega) (by omega)]
      exact hp3
  · -- resolved inputs: the new one from the chain, the old ones by frame
    intro j hj
    rcases List.mem_cons.mp hj with h1 | h2
    · subst h1
      exact ⟨hc2, hc3, hc4⟩
    · have hji : j ≠ i := fun hcon => hnew (hcon ▸ h2)
      have hjlt := hbound j h2
      obtain ⟨hd1, hd2, hd3⟩ := hdone j h2
      refine ⟨?_, ?_, ?_⟩
      · rw [hc8 j hji (by omega) (by omega) (by omega)]; exact hd1
      · rw [hc8 (n + 1 + 2 * j) (by omega) (by omega) (by omega) (by omega)]
        exact hd2
      · rw [hc8 (n + 1 + 2 * j + 1) (by omega) (by omega) (by omega) (by omega)]
        exact hd3
  · -- the shared buffer and counter
    rw [hc5, step_buffer_eq n i v done hi]
    rfl
  · -- output still pending while inputs remain
    intro hlt
    have hne : done.length + 1
        ≠ (((List.range n).map (fun j => if j ∈ done then v j else PVal.unit)).set i
            (v i)).length := by
      rw [hsetlen]
      have : (i :: done).length = done.length + 1 := rfl
      omega
    rw [hc7 hne]
    exact hout
  · -- last input: output resolved with the buffer in input order
    intro heq
    have hlenc : done.length + 1 = n := by
      have : (i :: done).length = done.length + 1 := rfl
      omega
    have hceq : done.length + 1
        = (((List.range n).map (fun j => if j ∈ done then v j else PVal.unit)).set i
            (v i)).length := by rw [hsetlen, hlenc]
    have hres := hc6 hceq
    rw [step_buffer_eq n i v done hi] at hres
    have hcomplete : ∀ j, j < n → j ∈ i :: done :=
      nodup_all_lt_complete n _ hndc hbndc (by rw [← hlenc]; rfl)
    have hmap : (List.range n).map
        (fun j => if j ∈ i :: done then v j else PVal.unit)
        = (List.range n).map v := by
      apply List.map_congr_left
      intro j hjm
      rw [if_pos (hcomplete j (List.mem_range.mp hjm))]
    rw [hmap] at hres
    exact hres

/-- Resolving any duplicate-free sequence of fresh inputs, in any order,
preserves the invariant, accumulating the resolved set. -/
theorem settleAll_inv (fuel n : Nat) (v : Nat → PVal) :
    ∀ (order done : List Nat) (h : Heap), allInv n v done h →
    (∀ j ∈ order, j < n) → (order ++ done).Nodup →
    allInv n v (order.reverse ++ done) (settleAll (fuel + 3) v h order) := by
  intro order
  induction order with
  | nil =>
    intro done h hinv _ _
    simpa using hinv
  | cons i rest ih =>
    intro done h hinv hbnd hnd
    rw [settleAll]
    have hi : i < n := hbnd i (List.mem_cons_self i rest)
    have hndflat : (i :: (rest ++ done)).Nodup := by simpa using hnd
    have hinotin : i ∉ rest ++ done := (List.nodup_cons.mp hndflat).1
    have hnewi : i ∉ done := fun hm =>
      hinotin (List.mem_append.mpr (Or.inr hm))
    obtain ⟨_, hinv2⟩ := allInv_resolve_step fuel n v done h i hinv hi hnewi
    have hnd2 : (rest ++ i :: done).Nodup := by
      have hperm : (rest ++ i :: done).Perm (i :: (rest ++ done)) :=
        List.perm_middle
      exact hperm.nodup_iff.mpr hndflat
    have hres := ih (i :: done) _ hinv2
      (fun j hj => hbnd j (List.mem_cons_of_mem i hj)) hnd2
    have hsplit : rest.reverse ++ i :: done = (i :: rest).reverse ++ done := by
      rw [List.reverse_cons, List.append_assoc]
      rfl
    rw [← hsplit]
    exact hres

/-- `make_all_promise` on the empty input range: the output promise is
immediately resolved with the empty container. -/
theorem make_all_empty (fuel : Nat) (h : Heap) :
    ((make_all_promise (fuel + 1) h []).2).states
        (make_all_promise (fuel + 1) h []).1
      = some { status := .resolved, value := some (.list []), error := none,
               handlers := [] } := by
  rw [show make_all_promise (fuel + 1) h []
      = make_resolved_promise (fuel + 1) h (.list []) from rfl]
  rw [show make_resolved_promise (fuel + 1) h (.list [])
      = (h.nextId, (resolveP (fuel + 1) (freshP h).2 h.nextId (.list [])).2)
      from rfl]
  rw [resolveP_pending_nohandlers fuel _ h.nextId (.list []) {}
      (freshP_states_self h) rfl rfl]
  exact update_states_self _ _ _

/-- C6: `make_all_promise` on an empty collection yields a promise already
resolved with the empty container.  On `n` fresh pending inputs: once every
input has resolved - in an arbitrary order `order` (any permutation of the
input positions), input `j` with value `v j` - the output promise `n`
resolves with the list of the input values in input-position order, not in
completion order; and if, after any duplicate-free prefix `pre` of inputs has
resolved, a remaining input `i` is rejected with `e`, the output is rejected
with that same error. -/
theorem C6_make_all_joins_in_input_order (fuel n i e : Nat) (h : Heap)
    (v : Nat → PVal) (order pre : List Nat)
    (hperm : order.Perm (List.range n))
    (hpre1 : ∀ j ∈ pre, j < n) (hpre2 : (i :: pre).Nodup) (hi : i < n) :
    ((make_all_promise (fuel + 1) h []).2).states
        (make_all_promise (fuel + 1) h []).1
      = some { status := .resolved, value := some (.list []), error := none,
               handlers := [] }
    ∧ (settleAll (fuel + 3) v (allScenario (fuel + 3) n).2 order).states n
      = some { status := .resolved,
               value := some (.list ((List.range n).map v)), error := none,
               handlers := [] }
    ∧ ((rejectP (fuel + 3)
          (settleAll (fuel + 3) v (allScenario (fuel + 3) n).2 pre) i e).2).states n
      = some { status := .rejected, value := none, error := some e,
               handlers := [] } := by
  refine ⟨make_all_empty fuel h, ?_, ?_⟩
  · -- join case: all inputs resolved in an arbitrary order
    by_cases hn0 : n = 0
    · subst hn0
      have horder : order = [] := by
        have : order.Perm [] := hperm
        exact List.perm_nil.mp this
      subst horder
      rw [show settleAll (fuel + 3) v (allScenario (fuel + 3) 0).2 [] =
          (allScenario (fuel + 3) 0).2 from rfl]
      rw [show allScenario (fuel + 3) 0
          = make_all_promise ((fuel + 2) + 1) (blankHeap 0) [] from rfl]
      have h0 := make_all_empty (fuel + 2) (blankHeap 0)
      rw [show (make_all_promise ((fuel + 2) + 1) (blankHeap 0) []).1 = 0
          from rfl] at h0
      rw [h0]
      rfl
    · have hn : 0 < n := by omega
      obtain ⟨hout1, hinv0⟩ := allScenario_spec (fuel + 3) n v hn
      have hbnd : ∀ j ∈ order, j < n := by
        intro j hj
        exact List.mem_range.mp (hperm.mem_iff.mp hj)
      have hndo : (order ++ []).Nodup := by
        rw [List.append_nil]
        exact hperm.nodup_iff.mpr (List.nodup_range n)
      have hres := settleAll_inv fuel n v order [] _ hinv0 hbnd hndo
      obtain ⟨_, _, _, _, _, _, houtr⟩ := hres
      have hlen : (order.reverse ++ []).length = n := by
        rw [List.append_nil, List.length_reverse, hperm.length_eq,
            List.length_range]
      exact houtr hlen
  · -- short-circuit case: rejecting a remaining input rejects the output
    have hn : 0 < n := by omega
    obtain ⟨hout1, hinv0⟩ := allScenario_spec (fuel + 3) n v hn
    have hndp : (pre ++ []).Nodup := by
      rw [List.append_nil]
      exact (List.nodup_cons.mp hpre2).2
    have hinv1 := settleAll_inv fuel n v pre [] _ hinv0 hpre1 hndp
    obtain ⟨hnd, hbound, hpend, hdone, hctx, houtp, houtr⟩ := hinv1
    have hinotin : i ∉ pre.reverse ++ [] := by
      rw [List.append_nil, List.mem_reverse]
      exact (List.nodup_cons.mp hpre2).1
    obtain ⟨hip, hin1, hin2⟩ := hpend i hi hinotin
    have hdlen : (pre.reverse ++ []).length < n := by
      have h1 : (i :: pre).length ≤ n :=
        nodup_all_lt_length_le n _ hpre2 (by
          intro j hj
          rcases List.mem_cons.mp hj with h1 | h2
          · exact h1 ▸ hi
          · exact hpre1 j h2)
      have h2 : (i :: pre).length = pre.length + 1 := rfl
      rw [List.append_nil, List.length_reverse]
      omega
    have hout := houtp hdlen
    obtain ⟨hj1, hj2⟩ :=
      reject_allA_chain fuel _ i 0 i n (n + 1 + 2 * i) (n + 1 + 2 * i + 1) e
        _ _ hip rfl rfl hin1 rfl rfl hout hin2
        (by omega) (by omega) (by omega) (by omega) (by omega) (by omega)
    exact hj2

/-- Witness for C6 at concrete inputs: two inputs resolved in reverse order
(input 1 with `nat 2` first, then input 0 with `nat 1`) still yield
`[nat 1, nat 2]`; and rejecting input 0 with error 7 after no input resolved
rejects the output with 7. -/
theorem C6_make_all_joins_in_input_order_witness :
    (settleAll 3 (fun j => PVal.nat (j + 1)) (allScenario 3 2).2 [1, 0]).states 2
      = some { status := .resolved,
               value := some (.list [PVal.nat 1, PVal.nat 2]), error := none,
               handlers := [] }
    ∧ ((rejectP 3 (settleAll 3 (fun j => PVal.nat (j + 1))
          (allScenario 3 2).2 []) 0 7).2).states 2
      = some { status := .rejected, value := none, error := some 7,
               handlers := [] } := by
  have hmain := C6_make_all_joins_in_input_order 0 2 0 7 emptyHeap
    (fun j => PVal.nat (j + 1)) [1, 0] [] (by decide) (by simp) (by decide)
    (by decide)
  exact ⟨hmain.2.1, hmain.2.2⟩

end PromiseHpp
